import Mathlib

/-!
# Single-producer / single-consumer ring queues of `benchmark.cpp`

A shallow embedding of the lock and queue classes of `src/benchmark.cpp`, and theorems about
their `push` / `pop` protocol: first executed sequentially (one call after another), then by
two threads whose calls are cut into individual steps.

Modelling conventions.

* A `std::size_t` cursor is a `Nat`.  The only arithmetic the queues perform on a cursor is
  `(current + 1) % (Size + 1)` (or `% Size`); for a cursor that is a valid index of the ring
  no wrap-around of the machine integer can occur, so no `% 2 ^ 64` is written.  On a cursor
  outside the ring the embedding and the code may differ (at `SIZE_MAX` the code wraps to
  `0`), so every theorem whose statement depends on the value of `next` is about cursors that
  are valid indices, by hypothesis or because the state is reached from the constructor; the
  frame and equivalence theorems, stated for every state, do not depend on that value.
* The backing array `T ring_[Size + 1]` is a function `Fin (Size + 1) → T`.  An access
  `ring_[i]` with `i` outside the array is undefined behaviour in C++; the embedding makes it
  explicit: every operation returns an `Option`, and `none` stands for such an access.
* `value = std::move(ring_[tail])` hands the slot's content to `value` and leaves the slot in
  whatever state the move assignment of `T` leaves its source.  That state is the parameter
  `moved_from src dst` (old slot content, old content of the destination); for a type whose
  move is a copy, such as `int`, it is `fun src _ => src`.
* Atomic loads and stores are plain reads and writes.  In a sequential execution the memory
  orders play no role; the two-thread machine interleaves whole loads and stores
  (sequential consistency) and does not model the reorderings of a weaker memory model.
* A loop that waits for a lock takes a `fuel` argument in the sequential embedding: `none`
  also stands for a wait that never ends (a thread alone waiting for a lock that is held).
* History variables (the counter `releases` of a `spin_lock`, the lists `pushed` and `popped`
  of the two-thread machine) record what has happened; no operation reads them.
-/

set_option autoImplicit false

/-- The class `spsc_queue_plus_one<T, Size>`: a ring of `Size + 1` slots and the two cursors. -/
structure spsc_queue_plus_one (T : Type) (Size : Nat) where
  ring_ : Fin (Size + 1) → T
  head_ : Nat
  tail_ : Nat

namespace spsc_queue_plus_one

variable {T : Type} {Size : Nat}

/-- The constructor `spsc_queue_plus_one()`: both cursors are initialised to `0`; the array is
left as it is found (`ring0`, default-initialised storage).  It has no failure path. -/
def ctor (ring0 : Fin (Size + 1) → T) : spsc_queue_plus_one T Size :=
  { ring_ := ring0, head_ := 0, tail_ := 0 }

/-- The private member `next`: `(current + 1) % (Size + 1)`.  The code computes it in
`std::size_t`; the two agree for every `current` that is a valid index of the ring, where
`current + 1` cannot wrap around. -/
def next (Size : Nat) (current : Nat) : Nat := (current + 1) % (Size + 1)

/-- The member `push(const T& value)`: result flag and the object afterwards. -/
def push (q : spsc_queue_plus_one T Size) (value : T) :
    Option (Bool × spsc_queue_plus_one T Size) :=
  let head := q.head_
  let next_head := next Size head
  if next_head = q.tail_ then
    some (false, q)
  else if h : head < Size + 1 then
    some (true, { ring_ := Function.update q.ring_ ⟨head, h⟩ value,
                  head_ := next_head,
                  tail_ := q.tail_ })
  else
    none

/-- The member `pop(T& value)`: result flag, the object afterwards, and the content of the
caller's variable `value` afterwards. -/
def pop (moved_from : T → T → T) (q : spsc_queue_plus_one T Size) (value : T) :
    Option (Bool × spsc_queue_plus_one T Size × T) :=
  let tail := q.tail_
  if tail = q.head_ then
    some (false, q, value)
  else if h : tail < Size + 1 then
    some (true,
          { ring_ := Function.update q.ring_ ⟨tail, h⟩ (moved_from (q.ring_ ⟨tail, h⟩) value),
            head_ := q.head_,
            tail_ := next Size tail },
          q.ring_ ⟨tail, h⟩)
  else
    none

/-- The caller `n` times in a row: `pop(out)` called `n` times on the same variable, with the
list of results. -/
def pop_n (moved_from : T → T → T) :
    Nat → spsc_queue_plus_one T Size → T → Option (List Bool × spsc_queue_plus_one T Size × T)
  | 0, q, out => some ([], q, out)
  | n + 1, q, out =>
    match pop moved_from q out with
    | none => none
    | some (b, q2, out2) =>
      match pop_n moved_from n q2 out2 with
      | none => none
      | some (bs, q3, out3) => some (b :: bs, q3, out3)

/-- Successive pushes of the values of a list with no intervening pop, with the list of
results. -/
def push_all : List T → spsc_queue_plus_one T Size → Option (List Bool × spsc_queue_plus_one T Size)
  | [], q => some ([], q)
  | v :: vs, q =>
    match push q v with
    | none => none
    | some (b, q2) =>
      match push_all vs q2 with
      | none => none
      | some (bs, q3) => some (b :: bs, q3)

/-- Number of slots from the tail up to the head, going round the ring. -/
def count (q : spsc_queue_plus_one T Size) : Nat :=
  (q.head_ + (Size + 1) - q.tail_) % (Size + 1)

/-- The slot with index `i` taken modulo the length of the ring. -/
def slot (q : spsc_queue_plus_one T Size) (i : Nat) : T :=
  q.ring_ ⟨i % (Size + 1), Nat.mod_lt _ (Nat.succ_pos Size)⟩

/-- Contents of the slots `tail, tail + 1, ..., head - 1` (indices modulo `Size + 1`). -/
def live (q : spsc_queue_plus_one T Size) : List T :=
  (List.range (count q)).map (fun i => slot q (q.tail_ + i))

/-- Both cursors are valid indices of the ring. -/
def in_bounds (q : spsc_queue_plus_one T Size) : Prop :=
  q.head_ < Size + 1 ∧ q.tail_ < Size + 1

end spsc_queue_plus_one

/-- The move of a trivially copyable element type (such as `int`): the source keeps its value. -/
def copy_move {T : Type} : T → T → T := fun src _ => src

/-- One call made by a sequential client of a queue. -/
inductive Op (T : Type) where
  | push (v : T) : Op T
  | pop : Op T

/-- What a sequential execution leaves behind: the object, the caller's variable, the
values of the successful pushes in order and the values received by the successful pops in
order. -/
structure Trace (T : Type) (Size : Nat) where
  queue : spsc_queue_plus_one T Size
  out : T
  pushed : List T
  popped : List T

/-- A sequence of calls executed one after another on a `spsc_queue_plus_one`, every pop using
the caller's variable `out`. -/
def run_ops {T : Type} {Size : Nat} (moved_from : T → T → T) :
    List (Op T) → spsc_queue_plus_one T Size → T → Option (Trace T Size)
  | [], q, out => some { queue := q, out := out, pushed := [], popped := [] }
  | Op.push v :: ops, q, out =>
    match spsc_queue_plus_one.push q v with
    | none => none
    | some (b, q2) =>
      match run_ops moved_from ops q2 out with
      | none => none
      | some t => some { t with pushed := if b then v :: t.pushed else t.pushed }
  | Op.pop :: ops, q, out =>
    match spsc_queue_plus_one.pop moved_from q out with
    | none => none
    | some (b, q2, out2) =>
      match run_ops moved_from ops q2 out2 with
      | none => none
      | some t => some { t with popped := if b then out2 :: t.popped else t.popped }

/-- The class `spsc_queue<T, Size>` (the tight variant): a ring of `Size` slots and the two
cursors.  The class exists for `Size >= 1` only (an array of length zero is ill-formed). -/
structure spsc_queue (T : Type) (Size : Nat) where
  ring_ : Fin Size → T
  head_ : Nat
  tail_ : Nat

namespace spsc_queue

variable {T : Type} {Size : Nat}

/-- The constructor `spsc_queue()`: both cursors are initialised to `0`. -/
def ctor (ring0 : Fin Size → T) : spsc_queue T Size :=
  { ring_ := ring0, head_ := 0, tail_ := 0 }

/-- The private member `next`: `(current + 1) % Size`. -/
def next (Size : Nat) (current : Nat) : Nat := (current + 1) % Size

/-- The member `push(const T& value)`. -/
def push (q : spsc_queue T Size) (value : T) : Option (Bool × spsc_queue T Size) :=
  let head := q.head_
  let next_head := next Size head
  if next_head = q.tail_ then
    some (false, q)
  else if h : head < Size then
    some (true, { ring_ := Function.update q.ring_ ⟨head, h⟩ value,
                  head_ := next_head,
                  tail_ := q.tail_ })
  else
    none

/-- The member `pop(T& value)`. -/
def pop (moved_from : T → T → T) (q : spsc_queue T Size) (value : T) :
    Option (Bool × spsc_queue T Size × T) :=
  let tail := q.tail_
  if tail = q.head_ then
    some (false, q, value)
  else if h : tail < Size then
    some (true,
          { ring_ := Function.update q.ring_ ⟨tail, h⟩ (moved_from (q.ring_ ⟨tail, h⟩) value),
            head_ := q.head_,
            tail_ := next Size tail },
          q.ring_ ⟨tail, h⟩)
  else
    none

/-- Successive pushes of the values of a list with no intervening pop, with the list of
results. -/
def push_all : List T → spsc_queue T Size → Option (List Bool × spsc_queue T Size)
  | [], q => some ([], q)
  | v :: vs, q =>
    match push q v with
    | none => none
    | some (b, q2) =>
      match push_all vs q2 with
      | none => none
      | some (bs, q3) => some (b :: bs, q3)

/-- The object of `spsc_queue<T, n + 1>` read as an object of `spsc_queue_plus_one<T, n>`:
same array, same cursors. -/
def to_plus_one {n : Nat} (q : spsc_queue T (n + 1)) : spsc_queue_plus_one T n :=
  { ring_ := q.ring_, head_ := q.head_, tail_ := q.tail_ }

end spsc_queue

/-! ## Locks -/

/-- The class `spin_lock`: the flag `lock_`.  The field `releases` is a history variable, not a
member of the class: it counts the calls of `unlock` made on the lock, so that "released
exactly once" can be stated. -/
structure spin_lock where
  lock_ : Bool
  releases : Nat

namespace spin_lock

/-- The default member initialiser `lock_ = {false}`. -/
def ctor : spin_lock := { lock_ := false, releases := 0 }

/-- The member `try_lock()`: `!lock_.exchange(true, acquire)`; the result and the lock
afterwards. -/
def try_lock (l : spin_lock) : Bool × spin_lock :=
  (!l.lock_, { l with lock_ := true })

/-- The inner loop `while (lock_.load(relaxed)) idle();` of `lock()`, run by a thread with
nobody else running: `none` when the fuel is used up. -/
def spin_wait : Nat → spin_lock → Option spin_lock
  | 0, _ => none
  | fuel + 1, l => if l.lock_ then spin_wait fuel l else some l

/-- The member `lock()`: the loop `for (;;)` around `try_lock()` and the inner wait, run by a
thread with nobody else running; `none` when the fuel is used up. -/
def lock : Nat → spin_lock → Option spin_lock
  | 0, _ => none
  | fuel + 1, l =>
    match try_lock l with
    | (true, l1) => some l1
    | (false, l1) =>
      match spin_wait fuel l1 with
      | none => none
      | some l2 => lock fuel l2

/-- The member `unlock()`: `lock_.store(false, release)`. -/
def unlock (l : spin_lock) : spin_lock :=
  { lock_ := false, releases := l.releases + 1 }

end spin_lock

namespace scoped_spin_lock

/-- The constructor `scoped_spin_lock(spin_lock& l)`: `lock_.lock()` on the lock referred
to. -/
def ctor (fuel : Nat) (l : spin_lock) : Option spin_lock := spin_lock.lock fuel l

/-- The destructor `~scoped_spin_lock()`: `lock_.unlock()` on the lock referred to. -/
def dtor (l : spin_lock) : spin_lock := spin_lock.unlock l

end scoped_spin_lock

/-- The standard library's `std::mutex`, as a single thread observes it: locked or not. -/
structure std.mutex where
  locked : Bool

namespace std.mutex

/-- The member `lock()` of the standard library: it returns once the mutex is acquired; called
on a mutex that is held, with nobody else running to release it, it never returns
(`none`). -/
def lock (m : std.mutex) : Option std.mutex :=
  if m.locked then none else some { locked := true }

/-- The member `unlock()` of the standard library. -/
def unlock (_m : std.mutex) : std.mutex := { locked := false }

end std.mutex

namespace std.scoped_lock

/-- The constructor of the standard library's `std::scoped_lock` over one mutex: it locks
the mutex. -/
def ctor (m : std.mutex) : Option std.mutex := std.mutex.lock m

/-- The destructor of `std::scoped_lock`: it unlocks the mutex. -/
def dtor (m : std.mutex) : std.mutex := std.mutex.unlock m

end std.scoped_lock

/-! ## The sentinel-slot variants -/

/-- The class `spsc_queue_no_false_sharing<T, Size>`: as `spsc_queue_plus_one`, with the
padding `volatile char c[1024]` between the cursors (never read or written by the class). -/
structure spsc_queue_no_false_sharing (T : Type) (Size : Nat) where
  ring_ : Fin (Size + 1) → T
  head_ : Nat
  c : Fin 1024 → Nat
  tail_ : Nat

namespace spsc_queue_no_false_sharing

variable {T : Type} {Size : Nat}

/-- The constructor: both cursors are initialised to `0`. -/
def ctor (ring0 : Fin (Size + 1) → T) (c0 : Fin 1024 → Nat) :
    spsc_queue_no_false_sharing T Size :=
  { ring_ := ring0, head_ := 0, c := c0, tail_ := 0 }

/-- The private member `next`: `(current + 1) % (Size + 1)`. -/
def next (Size : Nat) (current : Nat) : Nat := (current + 1) % (Size + 1)

/-- The member `push(const T& value)`. -/
def push (q : spsc_queue_no_false_sharing T Size) (value : T) :
    Option (Bool × spsc_queue_no_false_sharing T Size) :=
  let head := q.head_
  let next_head := next Size head
  if next_head = q.tail_ then
    some (false, q)
  else if h : head < Size + 1 then
    some (true, { q with ring_ := Function.update q.ring_ ⟨head, h⟩ value,
                         head_ := next_head })
  else
    none

/-- The member `pop(T& value)`. -/
def pop (moved_from : T → T → T) (q : spsc_queue_no_false_sharing T Size) (value : T) :
    Option (Bool × spsc_queue_no_false_sharing T Size × T) :=
  let tail := q.tail_
  if tail = q.head_ then
    some (false, q, value)
  else if h : tail < Size + 1 then
    some (true,
          { q with ring_ := Function.update q.ring_ ⟨tail, h⟩
                              (moved_from (q.ring_ ⟨tail, h⟩) value),
                   tail_ := next Size tail },
          q.ring_ ⟨tail, h⟩)
  else
    none

/-- The ring and the cursors of the object, as an object of `spsc_queue_plus_one`. -/
def to_plus_one (q : spsc_queue_no_false_sharing T Size) : spsc_queue_plus_one T Size :=
  { ring_ := q.ring_, head_ := q.head_, tail_ := q.tail_ }

end spsc_queue_no_false_sharing

/-- The class `spsc_queue_double_spin_lock<T, Size>`: the ring, the spin locks `read` and
`write`, the two cursors. -/
structure spsc_queue_double_spin_lock (T : Type) (Size : Nat) where
  ring_ : Fin (Size + 1) → T
  read : spin_lock
  write : spin_lock
  head_ : Nat
  tail_ : Nat

namespace spsc_queue_double_spin_lock

variable {T : Type} {Size : Nat}

/-- The constructor: both cursors are initialised to `0`, the locks by their own default
initialisers. -/
def ctor (ring0 : Fin (Size + 1) → T) : spsc_queue_double_spin_lock T Size :=
  { ring_ := ring0, read := spin_lock.ctor, write := spin_lock.ctor, head_ := 0, tail_ := 0 }

/-- The private member `next`: `(current + 1) % (Size + 1)`. -/
def next (Size : Nat) (current : Nat) : Nat := (current + 1) % (Size + 1)

/-- The member `push(const T& value)`: `scoped_spin_lock l(write)` guards the whole body; its
destructor runs on both returns. -/
def push (fuel : Nat) (q : spsc_queue_double_spin_lock T Size) (value : T) :
    Option (Bool × spsc_queue_double_spin_lock T Size) :=
  match scoped_spin_lock.ctor fuel q.write with
  | none => none
  | some l =>
    let head := q.head_
    let next_head := next Size head
    if next_head = q.tail_ then
      some (false, { q with write := scoped_spin_lock.dtor l })
    else if h : head < Size + 1 then
      some (true, { q with ring_ := Function.update q.ring_ ⟨head, h⟩ value,
                           head_ := next_head,
                           write := scoped_spin_lock.dtor l })
    else
      none

/-- The member `pop(T& value)`: `scoped_spin_lock l(read)` guards the whole body; its destructor
runs on both returns. -/
def pop (fuel : Nat) (moved_from : T → T → T) (q : spsc_queue_double_spin_lock T Size) (value : T) :
    Option (Bool × spsc_queue_double_spin_lock T Size × T) :=
  match scoped_spin_lock.ctor fuel q.read with
  | none => none
  | some l =>
    let tail := q.tail_
    if tail = q.head_ then
      some (false, { q with read := scoped_spin_lock.dtor l }, value)
    else if h : tail < Size + 1 then
      some (true,
            { q with ring_ := Function.update q.ring_ ⟨tail, h⟩
                                (moved_from (q.ring_ ⟨tail, h⟩) value),
                     tail_ := next Size tail,
                     read := scoped_spin_lock.dtor l },
            q.ring_ ⟨tail, h⟩)
    else
      none

/-- The ring and the cursors of the object, as an object of `spsc_queue_plus_one`. -/
def to_plus_one (q : spsc_queue_double_spin_lock T Size) : spsc_queue_plus_one T Size :=
  { ring_ := q.ring_, head_ := q.head_, tail_ := q.tail_ }

end spsc_queue_double_spin_lock

/-- The class `spsc_queue_single_spin_lock<T, Size>`: the ring, the one spin lock `lock`, the
two cursors. -/
structure spsc_queue_single_spin_lock (T : Type) (Size : Nat) where
  ring_ : Fin (Size + 1) → T
  lock : spin_lock
  head_ : Nat
  tail_ : Nat

namespace spsc_queue_single_spin_lock

variable {T : Type} {Size : Nat}

/-- The constructor: both cursors are initialised to `0`, the locks by their own default
initialisers. -/
def ctor (ring0 : Fin (Size + 1) → T) : spsc_queue_single_spin_lock T Size :=
  { ring_ := ring0, lock := spin_lock.ctor, head_ := 0, tail_ := 0 }

/-- The private member `next`: `(current + 1) % (Size + 1)`. -/
def next (Size : Nat) (current : Nat) : Nat := (current + 1) % (Size + 1)

/-- The member `push(const T& value)`: `scoped_spin_lock l(lock)` guards the whole body; its
destructor runs on both returns. -/
def push (fuel : Nat) (q : spsc_queue_single_spin_lock T Size) (value : T) :
    Option (Bool × spsc_queue_single_spin_lock T Size) :=
  match scoped_spin_lock.ctor fuel q.lock with
  | none => none
  | some l =>
    let head := q.head_
    let next_head := next Size head
    if next_head = q.tail_ then
      some (false, { q with lock := scoped_spin_lock.dtor l })
    else if h : head < Size + 1 then
      some (true, { q with ring_ := Function.update q.ring_ ⟨head, h⟩ value,
                           head_ := next_head,
                           lock := scoped_spin_lock.dtor l })
    else
      none

/-- The member `pop(T& value)`: `scoped_spin_lock l(lock)` guards the whole body; its destructor
runs on both returns. -/
def pop (fuel : Nat) (moved_from : T → T → T) (q : spsc_queue_single_spin_lock T Size) (value : T) :
    Option (Bool × spsc_queue_single_spin_lock T Size × T) :=
  match scoped_spin_lock.ctor fuel q.lock with
  | none => none
  | some l =>
    let tail := q.tail_
    if tail = q.head_ then
      some (false, { q with lock := scoped_spin_lock.dtor l }, value)
    else if h : tail < Size + 1 then
      some (true,
            { q with ring_ := Function.update q.ring_ ⟨tail, h⟩
                                (moved_from (q.ring_ ⟨tail, h⟩) value),
                     tail_ := next Size tail,
                     lock := scoped_spin_lock.dtor l },
            q.ring_ ⟨tail, h⟩)
    else
      none

/-- The ring and the cursors of the object, as an object of `spsc_queue_plus_one`. -/
def to_plus_one (q : spsc_queue_single_spin_lock T Size) : spsc_queue_plus_one T Size :=
  { ring_ := q.ring_, head_ := q.head_, tail_ := q.tail_ }

end spsc_queue_single_spin_lock

/-- The class `spsc_queue_double_mutex<T, Size>`: the ring, the mutexes `read` and `write`, the
two cursors. -/
structure spsc_queue_double_mutex (T : Type) (Size : Nat) where
  ring_ : Fin (Size + 1) → T
  read : std.mutex
  write : std.mutex
  head_ : Nat
  tail_ : Nat

namespace spsc_queue_double_mutex

variable {T : Type} {Size : Nat}

/-- The constructor: both cursors are initialised to `0`, the locks by their own default
initialisers. -/
def ctor (ring0 : Fin (Size + 1) → T) : spsc_queue_double_mutex T Size :=
  { ring_ := ring0, read := { locked := false }, write := { locked := false }, head_ := 0, tail_ := 0 }

/-- The private member `next`: `(current + 1) % (Size + 1)`. -/
def next (Size : Nat) (current : Nat) : Nat := (current + 1) % (Size + 1)

/-- The member `push(const T& value)`: `std::scoped_lock l(write)` guards the whole body; its
destructor runs on both returns. -/
def push (q : spsc_queue_double_mutex T Size) (value : T) :
    Option (Bool × spsc_queue_double_mutex T Size) :=
  match std.scoped_lock.ctor q.write with
  | none => none
  | some l =>
    let head := q.head_
    let next_head := next Size head
    if next_head = q.tail_ then
      some (false, { q with write := std.scoped_lock.dtor l })
    else if h : head < Size + 1 then
      some (true, { q with ring_ := Function.update q.ring_ ⟨head, h⟩ value,
                           head_ := next_head,
                           write := std.scoped_lock.dtor l })
    else
      none

/-- The member `pop(T& value)`: `std::scoped_lock l(read)` guards the whole body; its destructor
runs on both returns. -/
def pop (moved_from : T → T → T) (q : spsc_queue_double_mutex T Size) (value : T) :
    Option (Bool × spsc_queue_double_mutex T Size × T) :=
  match std.scoped_lock.ctor q.read with
  | none => none
  | some l =>
    let tail := q.tail_
    if tail = q.head_ then
      some (false, { q with read := std.scoped_lock.dtor l }, value)
    else if h : tail < Size + 1 then
      some (true,
            { q with ring_ := Function.update q.ring_ ⟨tail, h⟩
                                (moved_from (q.ring_ ⟨tail, h⟩) value),
                     tail_ := next Size tail,
                     read := std.scoped_lock.dtor l },
            q.ring_ ⟨tail, h⟩)
    else
      none

/-- The ring and the cursors of the object, as an object of `spsc_queue_plus_one`. -/
def to_plus_one (q : spsc_queue_double_mutex T Size) : spsc_queue_plus_one T Size :=
  { ring_ := q.ring_, head_ := q.head_, tail_ := q.tail_ }

end spsc_queue_double_mutex

/-- The class `spsc_queue_single_mutex<T, Size>`: the ring, the one mutex `lock`, the two
cursors. -/
structure spsc_queue_single_mutex (T : Type) (Size : Nat) where
  ring_ : Fin (Size + 1) → T
  lock : std.mutex
  head_ : Nat
  tail_ : Nat

namespace spsc_queue_single_mutex

variable {T : Type} {Size : Nat}

/-- The constructor: both cursors are initialised to `0`, the locks by their own default
initialisers. -/
def ctor (ring0 : Fin (Size + 1) → T) : spsc_queue_single_mutex T Size :=
  { ring_ := ring0, lock := { locked := false }, head_ := 0, tail_ := 0 }

/-- The private member `next`: `(current + 1) % (Size + 1)`. -/
def next (Size : Nat) (current : Nat) : Nat := (current + 1) % (Size + 1)

/-- The member `push(const T& value)`: `std::scoped_lock l(lock)` guards the whole body; its
destructor runs on both returns. -/
def push (q : spsc_queue_single_mutex T Size) (value : T) :
    Option (Bool × spsc_queue_single_mutex T Size) :=
  match std.scoped_lock.ctor q.lock with
  | none => none
  | some l =>
    let head := q.head_
    let next_head := next Size head
    if next_head = q.tail_ then
      some (false, { q with lock := std.scoped_lock.dtor l })
    else if h : head < Size + 1 then
      some (true, { q with ring_ := Function.update q.ring_ ⟨head, h⟩ value,
                           head_ := next_head,
                           lock := std.scoped_lock.dtor l })
    else
      none

/-- The member `pop(T& value)`: `std::scoped_lock l(lock)` guards the whole body; its destructor
runs on both returns. -/
def pop (moved_from : T → T → T) (q : spsc_queue_single_mutex T Size) (value : T) :
    Option (Bool × spsc_queue_single_mutex T Size × T) :=
  match std.scoped_lock.ctor q.lock with
  | none => none
  | some l =>
    let tail := q.tail_
    if tail = q.head_ then
      some (false, { q with lock := std.scoped_lock.dtor l }, value)
    else if h : tail < Size + 1 then
      some (true,
            { q with ring_ := Function.update q.ring_ ⟨tail, h⟩
                                (moved_from (q.ring_ ⟨tail, h⟩) value),
                     tail_ := next Size tail,
                     lock := std.scoped_lock.dtor l },
            q.ring_ ⟨tail, h⟩)
    else
      none

/-- The ring and the cursors of the object, as an object of `spsc_queue_plus_one`. -/
def to_plus_one (q : spsc_queue_single_mutex T Size) : spsc_queue_plus_one T Size :=
  { ring_ := q.ring_, head_ := q.head_, tail_ := q.tail_ }

end spsc_queue_single_mutex

/-- The class `spsc_queue_spin_lock_no_atomic<T, Size>`: the ring, the one spin lock `write`
(taken by `push` and by `pop`), and the two cursors as plain `std::size_t`. -/
structure spsc_queue_spin_lock_no_atomic (T : Type) (Size : Nat) where
  ring_ : Fin (Size + 1) → T
  write : spin_lock
  head_ : Nat
  tail_ : Nat

namespace spsc_queue_spin_lock_no_atomic

variable {T : Type} {Size : Nat}

/-- The constructor: both cursors are initialised to `0`, the locks by their own default
initialisers. -/
def ctor (ring0 : Fin (Size + 1) → T) : spsc_queue_spin_lock_no_atomic T Size :=
  { ring_ := ring0, write := spin_lock.ctor, head_ := 0, tail_ := 0 }

/-- The private member `next`: `(current + 1) % (Size + 1)`. -/
def next (Size : Nat) (current : Nat) : Nat := (current + 1) % (Size + 1)

/-- The member `push(const T& value)`: `scoped_spin_lock l(write)` guards the whole body; its
destructor runs on both returns. -/
def push (fuel : Nat) (q : spsc_queue_spin_lock_no_atomic T Size) (value : T) :
    Option (Bool × spsc_queue_spin_lock_no_atomic T Size) :=
  match scoped_spin_lock.ctor fuel q.write with
  | none => none
  | some l =>
    let head := q.head_
    let next_head := next Size head
    if next_head = q.tail_ then
      some (false, { q with write := scoped_spin_lock.dtor l })
    else if h : head < Size + 1 then
      some (true, { q with ring_ := Function.update q.ring_ ⟨head, h⟩ value,
                           head_ := next_head,
                           write := scoped_spin_lock.dtor l })
    else
      none

/-- The member `pop(T& value)`: `scoped_spin_lock l(write)` guards the whole body; its
destructor runs on both returns. -/
def pop (fuel : Nat) (moved_from : T → T → T) (q : spsc_queue_spin_lock_no_atomic T Size)
    (value : T) :
    Option (Bool × spsc_queue_spin_lock_no_atomic T Size × T) :=
  match scoped_spin_lock.ctor fuel q.write with
  | none => none
  | some l =>
    let tail := q.tail_
    if tail = q.head_ then
      some (false, { q with write := scoped_spin_lock.dtor l }, value)
    else if h : tail < Size + 1 then
      some (true,
            { q with ring_ := Function.update q.ring_ ⟨tail, h⟩
                                (moved_from (q.ring_ ⟨tail, h⟩) value),
                     tail_ := next Size tail,
                     write := scoped_spin_lock.dtor l },
            q.ring_ ⟨tail, h⟩)
    else
      none

/-- The ring and the cursors of the object, as an object of `spsc_queue_plus_one`. -/
def to_plus_one (q : spsc_queue_spin_lock_no_atomic T Size) : spsc_queue_plus_one T Size :=
  { ring_ := q.ring_, head_ := q.head_, tail_ := q.tail_ }

end spsc_queue_spin_lock_no_atomic

/-- The class `spsc_queue_spin_lock_no_raii<T, Size>`: the ring, the spin locks `read` and
`write`, the two cursors. -/
structure spsc_queue_spin_lock_no_raii (T : Type) (Size : Nat) where
  ring_ : Fin (Size + 1) → T
  read : spin_lock
  write : spin_lock
  head_ : Nat
  tail_ : Nat

namespace spsc_queue_spin_lock_no_raii

variable {T : Type} {Size : Nat}

/-- The constructor: both cursors are initialised to `0`, the locks by their own default
initialisers. -/
def ctor (ring0 : Fin (Size + 1) → T) : spsc_queue_spin_lock_no_raii T Size :=
  { ring_ := ring0, read := spin_lock.ctor, write := spin_lock.ctor, head_ := 0, tail_ := 0 }

/-- The private member `next`: `(current + 1) % (Size + 1)`. -/
def next (Size : Nat) (current : Nat) : Nat := (current + 1) % (Size + 1)

/-- The member `push(const T& value)`: `write.lock()` first, `write.unlock()` written before
each of the two returns. -/
def push (fuel : Nat) (q : spsc_queue_spin_lock_no_raii T Size) (value : T) :
    Option (Bool × spsc_queue_spin_lock_no_raii T Size) :=
  match spin_lock.lock fuel q.write with
  | none => none
  | some l =>
    let head := q.head_
    let next_head := next Size head
    if next_head = q.tail_ then
      some (false, { q with write := spin_lock.unlock l })
    else if h : head < Size + 1 then
      some (true, { q with ring_ := Function.update q.ring_ ⟨head, h⟩ value,
                           head_ := next_head,
                           write := spin_lock.unlock l })
    else
      none

/-- The member `pop(T& value)`: `read.lock()` first, `read.unlock()` written before each of the
two returns. -/
def pop (fuel : Nat) (moved_from : T → T → T) (q : spsc_queue_spin_lock_no_raii T Size)
    (value : T) :
    Option (Bool × spsc_queue_spin_lock_no_raii T Size × T) :=
  match spin_lock.lock fuel q.read with
  | none => none
  | some l =>
    let tail := q.tail_
    if tail = q.head_ then
      some (false, { q with read := spin_lock.unlock l }, value)
    else if h : tail < Size + 1 then
      some (true,
            { q with ring_ := Function.update q.ring_ ⟨tail, h⟩
                                (moved_from (q.ring_ ⟨tail, h⟩) value),
                     tail_ := next Size tail,
                     read := spin_lock.unlock l },
            q.ring_ ⟨tail, h⟩)
    else
      none

/-- The ring and the cursors of the object, as an object of `spsc_queue_plus_one`. -/
def to_plus_one (q : spsc_queue_spin_lock_no_raii T Size) : spsc_queue_plus_one T Size :=
  { ring_ := q.ring_, head_ := q.head_, tail_ := q.tail_ }

end spsc_queue_spin_lock_no_raii

/-! ## The variants behind one interface -/

/-- Length of the backing array of `spsc_queue<T, Size>`: the declarator `T ring_[Size]`. -/
def spsc_queue.ring_size (Size : Nat) : Nat := Size

/-- Length of the backing array of `spsc_queue_plus_one<T, Size>`: the declarator
`T ring_[Size + 1]`. -/
def spsc_queue_plus_one.ring_size (Size : Nat) : Nat := Size + 1

/-- What a sequential execution on any of the queue classes leaves behind: the object, the
caller's variable, the values of the successful pushes in order and the values received by
the successful pops in order. -/
structure Run (Q T : Type) where
  queue : Q
  out : T
  pushed : List T
  popped : List T

/-- A sequence of calls executed one after another on an object with the given `push` and
`pop`, every pop using the caller's variable `out`. -/
def run_calls {Q T : Type} (push : Q → T → Option (Bool × Q))
    (pop : Q → T → Option (Bool × Q × T)) : List (Op T) → Q → T → Option (Run Q T)
  | [], q, out => some { queue := q, out := out, pushed := [], popped := [] }
  | Op.push v :: ops, q, out =>
    match push q v with
    | none => none
    | some (b, q2) =>
      match run_calls push pop ops q2 out with
      | none => none
      | some r => some { r with pushed := if b then v :: r.pushed else r.pushed }
  | Op.pop :: ops, q, out =>
    match pop q out with
    | none => none
    | some (b, q2, out2) =>
      match run_calls push pop ops q2 out2 with
      | none => none
      | some r => some { r with popped := if b then out2 :: r.popped else r.popped }

/-- The values handed to `push` by a sequence of calls, in order. -/
def pushes_of {T : Type} : List (Op T) → List T
  | [] => []
  | Op.push v :: ops => v :: pushes_of ops
  | Op.pop :: ops => pushes_of ops

/-- A queue class seen through its interface: the type of its objects, its `push` and `pop`,
its ring and cursors read as an object of `spsc_queue_plus_one<T, Size>`, and the condition
`ready` that every lock of the object is free. -/
structure Variant (T : Type) (Size : Nat) where
  Q : Type
  push : Q → T → Option (Bool × Q)
  pop : (T → T → T) → Q → T → Option (Bool × Q × T)
  view : Q → spsc_queue_plus_one T Size
  ready : Q → Prop

/-- The class `spsc_queue_plus_one<T, Size>` itself. -/
def variant_plus_one (T : Type) (Size : Nat) : Variant T Size :=
  { Q := spsc_queue_plus_one T Size
    push := spsc_queue_plus_one.push
    pop := spsc_queue_plus_one.pop
    view := fun q => q
    ready := fun _ => True }

/-- The class `spsc_queue<T, Size + 1>`. -/
def variant_tight (T : Type) (Size : Nat) : Variant T Size :=
  { Q := spsc_queue T (Size + 1)
    push := spsc_queue.push
    pop := spsc_queue.pop
    view := spsc_queue.to_plus_one
    ready := fun _ => True }

/-- The class `spsc_queue_no_false_sharing<T, Size>`. -/
def variant_no_false_sharing (T : Type) (Size : Nat) : Variant T Size :=
  { Q := spsc_queue_no_false_sharing T Size
    push := spsc_queue_no_false_sharing.push
    pop := spsc_queue_no_false_sharing.pop
    view := spsc_queue_no_false_sharing.to_plus_one
    ready := fun _ => True }

/-- The class `spsc_queue_double_spin_lock<T, Size>`. -/
def variant_double_spin_lock (T : Type) (Size : Nat) (fuel : Nat) : Variant T Size :=
  { Q := spsc_queue_double_spin_lock T Size
    push := spsc_queue_double_spin_lock.push fuel
    pop := spsc_queue_double_spin_lock.pop fuel
    view := spsc_queue_double_spin_lock.to_plus_one
    ready := fun q => q.read.lock_ = false ∧ q.write.lock_ = false }

/-- The class `spsc_queue_single_spin_lock<T, Size>`. -/
def variant_single_spin_lock (T : Type) (Size : Nat) (fuel : Nat) : Variant T Size :=
  { Q := spsc_queue_single_spin_lock T Size
    push := spsc_queue_single_spin_lock.push fuel
    pop := spsc_queue_single_spin_lock.pop fuel
    view := spsc_queue_single_spin_lock.to_plus_one
    ready := fun q => q.lock.lock_ = false }

/-- The class `spsc_queue_double_mutex<T, Size>`. -/
def variant_double_mutex (T : Type) (Size : Nat) : Variant T Size :=
  { Q := spsc_queue_double_mutex T Size
    push := spsc_queue_double_mutex.push
    pop := spsc_queue_double_mutex.pop
    view := spsc_queue_double_mutex.to_plus_one
    ready := fun q => q.read.locked = false ∧ q.write.locked = false }

/-- The class `spsc_queue_single_mutex<T, Size>`. -/
def variant_single_mutex (T : Type) (Size : Nat) : Variant T Size :=
  { Q := spsc_queue_single_mutex T Size
    push := spsc_queue_single_mutex.push
    pop := spsc_queue_single_mutex.pop
    view := spsc_queue_single_mutex.to_plus_one
    ready := fun q => q.lock.locked = false }

/-- The class `spsc_queue_spin_lock_no_atomic<T, Size>`. -/
def variant_spin_lock_no_atomic (T : Type) (Size : Nat) (fuel : Nat) : Variant T Size :=
  { Q := spsc_queue_spin_lock_no_atomic T Size
    push := spsc_queue_spin_lock_no_atomic.push fuel
    pop := spsc_queue_spin_lock_no_atomic.pop fuel
    view := spsc_queue_spin_lock_no_atomic.to_plus_one
    ready := fun q => q.write.lock_ = false }

/-- The class `spsc_queue_spin_lock_no_raii<T, Size>`. -/
def variant_spin_lock_no_raii (T : Type) (Size : Nat) (fuel : Nat) : Variant T Size :=
  { Q := spsc_queue_spin_lock_no_raii T Size
    push := spsc_queue_spin_lock_no_raii.push fuel
    pop := spsc_queue_spin_lock_no_raii.pop fuel
    view := spsc_queue_spin_lock_no_raii.to_plus_one
    ready := fun q => q.read.lock_ = false ∧ q.write.lock_ = false }

/-- The seven sentinel-slot classes other than `spsc_queue_plus_one`, with `fuel` rounds
granted to every spin loop. -/
def sentinel_variants (T : Type) (Size : Nat) (fuel : Nat) : List (Variant T Size) :=
  [variant_no_false_sharing T Size,
   variant_double_spin_lock T Size fuel,
   variant_single_spin_lock T Size fuel,
   variant_double_mutex T Size,
   variant_single_mutex T Size,
   variant_spin_lock_no_atomic T Size fuel,
   variant_spin_lock_no_raii T Size fuel]

/-- The nine classes the benchmark instantiates with usable capacity `Size`:
`spsc_queue<T, Size + 1>`, `spsc_queue_plus_one<T, Size>` and the seven other `<T, Size>`
sentinel-slot classes. -/
def benchmark_variants (T : Type) (Size : Nat) (fuel : Nat) : List (Variant T Size) :=
  variant_tight T Size :: variant_plus_one T Size :: sentinel_variants T Size fuel

/-! ## Two threads: the calls step by step

One producer thread calling `push` and one consumer thread calling `pop`, each call cut into
its individual accesses to shared memory (loads and stores of the cursors, the slot access,
the operations on the locks); a schedule chooses, step after step, which thread moves.  Local
computations (`next(head)`, the comparisons) are part of the step of the load they follow. -/

/-- How a class guards `push` and `pop`: not at all, by `spin_lock` (through
`scoped_spin_lock` or by hand), or by `std::mutex` (through `std::scoped_lock`). -/
inductive LockKind where
  | none : LockKind
  | spin : LockKind
  | mutex : LockKind

/-- The synchronisation of a class: the kind of its locks, and whether `push` and `pop` take
the same lock (`shared`) or one lock each. -/
structure Sync where
  kind : LockKind
  shared : Bool

/-- The class `spsc_queue_plus_one`: atomics only. -/
def sync_plus_one : Sync := { kind := LockKind.none, shared := false }

/-- The class `spsc_queue_no_false_sharing`: atomics only. -/
def sync_no_false_sharing : Sync := { kind := LockKind.none, shared := false }

/-- The class `spsc_queue_double_spin_lock`: `push` under `scoped_spin_lock l(write)`, `pop`
under `scoped_spin_lock l(read)`. -/
def sync_double_spin_lock : Sync := { kind := LockKind.spin, shared := false }

/-- The class `spsc_queue_single_spin_lock`: `push` and `pop` under
`scoped_spin_lock l(lock)`. -/
def sync_single_spin_lock : Sync := { kind := LockKind.spin, shared := true }

/-- The class `spsc_queue_double_mutex`: `push` under `std::scoped_lock l(write)`, `pop` under
`std::scoped_lock l(read)`. -/
def sync_double_mutex : Sync := { kind := LockKind.mutex, shared := false }

/-- The class `spsc_queue_single_mutex`: `push` and `pop` under `std::scoped_lock l(lock)`. -/
def sync_single_mutex : Sync := { kind := LockKind.mutex, shared := true }

/-- The class `spsc_queue_spin_lock_no_atomic`: `push` and `pop` under
`scoped_spin_lock l(write)`. -/
def sync_spin_lock_no_atomic : Sync := { kind := LockKind.spin, shared := true }

/-- The class `spsc_queue_spin_lock_no_raii`: `push` between `write.lock()` and
`write.unlock()`, `pop` between `read.lock()` and `read.unlock()`. -/
def sync_spin_lock_no_raii : Sync := { kind := LockKind.spin, shared := false }

/-- Every variant except the tight one `spsc_queue`. -/
def concurrent_variants : List Sync :=
  [sync_plus_one, sync_no_false_sharing, sync_double_spin_lock, sync_single_spin_lock,
   sync_double_mutex, sync_single_mutex, sync_spin_lock_no_atomic, sync_spin_lock_no_raii]

/-- Where the producer stands in `push`: outside a call; at the `try_lock` of `lock()` (or at
the `lock()` of the mutex); in the inner wait of `spin_lock::lock()`; before the load of
`head_`; before the load of `tail_`; before `ring_[head] = value`; before the store to
`head_`; before the unlock (if any) and the return of `result`. -/
inductive PPc where
  | idle : PPc
  | acquire : PPc
  | spin : PPc
  | load_head : PPc
  | load_tail : PPc
  | write_slot : PPc
  | store_head : PPc
  | release (result : Bool) : PPc

/-- Where the consumer stands in `pop`: outside a call; at the `try_lock` of `lock()` (or at
the `lock()` of the mutex); in the inner wait of `spin_lock::lock()`; before the load of
`tail_`; before the load of `head_`; before `value = std::move(ring_[tail])`; before the store
to `tail_`; before the unlock (if any) and the return of `result`. -/
inductive CPc where
  | idle : CPc
  | acquire : CPc
  | spin : CPc
  | load_tail : CPc
  | load_head : CPc
  | move_slot : CPc
  | store_tail : CPc
  | release (result : Bool) : CPc

/-- The object shared by the two threads (ring and cursors in `queue`, the flag of the lock
`push` takes in `push_lock`, the flag of the lock `pop` takes when that is another one in
`pop_lock`), the locals of the producer inside `push` (`value`, `head`, `next_head`), the
locals of the consumer inside `pop` (`tail`) with its variable `out`, and two history
variables: the values whose push has stored the new head, in order (`pushed`), and the
values received by the pops that have stored the new tail, in order (`popped`). -/
structure Machine (T : Type) (Size : Nat) where
  queue : spsc_queue_plus_one T Size
  push_lock : Bool
  pop_lock : Bool
  ppc : PPc
  value : T
  head : Nat
  next_head : Nat
  cpc : CPc
  tail : Nat
  out : T
  pushed : List T
  popped : List T

/-- The two threads before their first call, on a freshly constructed object; `value0` is
what the producer's parameter slot holds before the first call. -/
def machine_init {T : Type} {Size : Nat} (ring0 : Fin (Size + 1) → T) (out0 value0 : T) :
    Machine T Size :=
  { queue := spsc_queue_plus_one.ctor ring0
    push_lock := false
    pop_lock := false
    ppc := PPc.idle
    value := value0
    head := 0
    next_head := 0
    cpc := CPc.idle
    tail := 0
    out := out0
    pushed := []
    popped := [] }

/-- One step of the producer.  A step taken outside a call starts `push(v)`.  A thread that
waits for a mutex held by the other thread stays where it is.  `none` is an access outside
the ring. -/
def producer_step {T : Type} {Size : Nat} (sync : Sync) (v : T) (s : Machine T Size) :
    Option (Machine T Size) :=
  match s.ppc with
  | PPc.idle =>
    match sync.kind with
    | LockKind.none => some { s with value := v, ppc := PPc.load_head }
    | LockKind.spin => some { s with value := v, ppc := PPc.acquire }
    | LockKind.mutex => some { s with value := v, ppc := PPc.acquire }
  | PPc.acquire =>
    match sync.kind with
    | LockKind.none => some { s with ppc := PPc.load_head }
    | LockKind.spin =>
      -- `try_lock()`: `!lock_.exchange(true)`
      if s.push_lock then some { s with push_lock := true, ppc := PPc.spin }
      else some { s with push_lock := true, ppc := PPc.load_head }
    | LockKind.mutex =>
      if s.push_lock then some s
      else some { s with push_lock := true, ppc := PPc.load_head }
  | PPc.spin =>
    -- `while (lock_.load()) idle();`
    if s.push_lock then some s else some { s with ppc := PPc.acquire }
  | PPc.load_head =>
    some { s with head := s.queue.head_,
                  next_head := spsc_queue_plus_one.next Size s.queue.head_,
                  ppc := PPc.load_tail }
  | PPc.load_tail =>
    if s.next_head = s.queue.tail_ then some { s with ppc := PPc.release false }
    else some { s with ppc := PPc.write_slot }
  | PPc.write_slot =>
    if h : s.head < Size + 1 then
      some { s with queue := { ring_ := Function.update s.queue.ring_ ⟨s.head, h⟩ s.value,
                               head_ := s.queue.head_,
                               tail_ := s.queue.tail_ },
                    ppc := PPc.store_head }
    else none
  | PPc.store_head =>
    some { s with queue := { ring_ := s.queue.ring_,
                             head_ := s.next_head,
                             tail_ := s.queue.tail_ },
                  pushed := s.pushed ++ [s.value],
                  ppc := PPc.release true }
  | PPc.release _ =>
    match sync.kind with
    | LockKind.none => some { s with ppc := PPc.idle }
    | LockKind.spin => some { s with push_lock := false, ppc := PPc.idle }
    | LockKind.mutex => some { s with push_lock := false, ppc := PPc.idle }

/-- The flag of the lock `pop` takes. -/
def pop_lock_flag {T : Type} {Size : Nat} (sync : Sync) (s : Machine T Size) : Bool :=
  if sync.shared then s.push_lock else s.pop_lock

/-- A store to the flag of the lock `pop` takes. -/
def set_pop_lock_flag {T : Type} {Size : Nat} (sync : Sync) (b : Bool) (s : Machine T Size) :
    Machine T Size :=
  if sync.shared then { s with push_lock := b } else { s with pop_lock := b }

/-- One step of the consumer.  A step taken outside a call starts `pop(out)`.  A thread that
waits for a mutex held by the other thread stays where it is.  `none` is an access outside
the ring. -/
def consumer_step {T : Type} {Size : Nat} (sync : Sync) (moved_from : T → T → T)
    (s : Machine T Size) : Option (Machine T Size) :=
  match s.cpc with
  | CPc.idle =>
    match sync.kind with
    | LockKind.none => some { s with cpc := CPc.load_tail }
    | LockKind.spin => some { s with cpc := CPc.acquire }
    | LockKind.mutex => some { s with cpc := CPc.acquire }
  | CPc.acquire =>
    match sync.kind with
    | LockKind.none => some { s with cpc := CPc.load_tail }
    | LockKind.spin =>
      if pop_lock_flag sync s then some { set_pop_lock_flag sync true s with cpc := CPc.spin }
      else some { set_pop_lock_flag sync true s with cpc := CPc.load_tail }
    | LockKind.mutex =>
      if pop_lock_flag sync s then some s
      else some { set_pop_lock_flag sync true s with cpc := CPc.load_tail }
  | CPc.spin =>
    if pop_lock_flag sync s then some s else some { s with cpc := CPc.acquire }
  | CPc.load_tail =>
    some { s with tail := s.queue.tail_, cpc := CPc.load_head }
  | CPc.load_head =>
    if s.tail = s.queue.head_ then some { s with cpc := CPc.release false }
    else some { s with cpc := CPc.move_slot }
  | CPc.move_slot =>
    if h : s.tail < Size + 1 then
      some { s with queue := { ring_ := Function.update s.queue.ring_ ⟨s.tail, h⟩
                                          (moved_from (s.queue.ring_ ⟨s.tail, h⟩) s.out),
                               head_ := s.queue.head_,
                               tail_ := s.queue.tail_ },
                    out := s.queue.ring_ ⟨s.tail, h⟩,
                    cpc := CPc.store_tail }
    else none
  | CPc.store_tail =>
    some { s with queue := { ring_ := s.queue.ring_,
                             head_ := s.queue.head_,
                             tail_ := spsc_queue_plus_one.next Size s.tail },
                  popped := s.popped ++ [s.out],
                  cpc := CPc.release true }
  | CPc.release _ =>
    match sync.kind with
    | LockKind.none => some { s with cpc := CPc.idle }
    | LockKind.spin => some { set_pop_lock_flag sync false s with cpc := CPc.idle }
    | LockKind.mutex => some { set_pop_lock_flag sync false s with cpc := CPc.idle }

/-- The choice made by the scheduler at one step: the producer moves (with `v` the argument
of the call, should the step start one) or the consumer moves. -/
inductive Turn (T : Type) where
  | producer (v : T) : Turn T
  | consumer : Turn T

/-- One step of the machine. -/
def machine_step {T : Type} {Size : Nat} (sync : Sync) (moved_from : T → T → T) :
    Turn T → Machine T Size → Option (Machine T Size)
  | Turn.producer v, s => producer_step sync v s
  | Turn.consumer, s => consumer_step sync moved_from s

/-- An interleaving: the steps of a schedule taken one after another. -/
def machine_run {T : Type} {Size : Nat} (sync : Sync) (moved_from : T → T → T) :
    List (Turn T) → Machine T Size → Option (Machine T Size)
  | [], s => some s
  | a :: rest, s =>
    match machine_step sync moved_from a s with
    | none => none
    | some s2 => machine_run sync moved_from rest s2

/-- The values stored in the queue and not yet handed to the consumer, oldest first: the
slots `tail, ..., head - 1`; when the consumer has moved the slot at `tail` into `out` and
not yet stored the new tail, `out` followed by the slots `tail + 1, ..., head - 1`. -/
def pending {T : Type} {Size : Nat} (s : Machine T Size) : List T :=
  match s.cpc with
  | CPc.store_tail =>
    s.out :: spsc_queue_plus_one.live
      ({ ring_ := s.queue.ring_, head_ := s.queue.head_,
         tail_ := spsc_queue_plus_one.next Size s.queue.tail_ } : spsc_queue_plus_one T Size)
  | _ => spsc_queue_plus_one.live s.queue

/-- What the producer knows while inside `push`: from the load of `head_` on, its locals are
the head and its successor; from the check on, the queue is not full; once the slot is
written, it holds `value`. -/
def producer_ok {T : Type} {Size : Nat} (s : Machine T Size) : Prop :=
  match s.ppc with
  | PPc.load_tail =>
    s.head = s.queue.head_ ∧ s.next_head = spsc_queue_plus_one.next Size s.queue.head_
  | PPc.write_slot =>
    s.head = s.queue.head_ ∧ s.next_head = spsc_queue_plus_one.next Size s.queue.head_ ∧
    spsc_queue_plus_one.count s.queue < Size
  | PPc.store_head =>
    s.head = s.queue.head_ ∧ s.next_head = spsc_queue_plus_one.next Size s.queue.head_ ∧
    spsc_queue_plus_one.count s.queue < Size ∧
    spsc_queue_plus_one.slot s.queue s.queue.head_ = s.value
  | _ => True

/-- What the consumer knows while inside `pop`: from the load of `tail_` on, its local is the
tail; from the check on, the queue is not empty. -/
def consumer_ok {T : Type} {Size : Nat} (s : Machine T Size) : Prop :=
  match s.cpc with
  | CPc.load_head => s.tail = s.queue.tail_
  | CPc.move_slot => s.tail = s.queue.tail_ ∧ 0 < spsc_queue_plus_one.count s.queue
  | CPc.store_tail => s.tail = s.queue.tail_ ∧ 0 < spsc_queue_plus_one.count s.queue
  | _ => True

/-- The invariant of the two-thread machine. -/
def machine_inv {T : Type} {Size : Nat} (s : Machine T Size) : Prop :=
  spsc_queue_plus_one.in_bounds s.queue ∧ producer_ok s ∧ consumer_ok s ∧
  s.pushed = s.popped ++ pending s

/-! ## Any number of threads on one `spin_lock`

Threads are numbered; a schedule chooses, step after step, which thread does what.  A thread
holds the lock from a `try_lock()` of its own that returned `true` until its `unlock()`. -/

/-- One step of a thread `t` on the lock: the exchange of `try_lock()`, the relaxed load of the
inner wait of `lock()`, or `unlock()`. -/
inductive LockOp where
  | try_lock (t : Nat) : LockOp
  | load (t : Nat) : LockOp
  | unlock (t : Nat) : LockOp

/-- The lock shared by the threads, and for every thread whether it holds the lock. -/
structure LockSystem where
  lock : spin_lock
  holds : Nat → Bool

/-- The lock as constructed (`lock_ = {false}`), held by nobody. -/
def lock_system_init : LockSystem :=
  { lock := spin_lock.ctor, holds := fun _ => false }

/-- One step.  `try_lock` by `t` runs `spin_lock::try_lock` and makes `t` a holder when it
returns `true`; `load` reads the flag and changes nothing; `unlock` by `t` runs
`spin_lock::unlock` and is a step only while `t` holds the lock (`none` otherwise). -/
def lock_system_step : LockOp → LockSystem → Option LockSystem
  | LockOp.try_lock t, s =>
    match spin_lock.try_lock s.lock with
    | (true, l) => some { lock := l, holds := Function.update s.holds t true }
    | (false, l) => some { lock := l, holds := s.holds }
  | LockOp.load _, s => some s
  | LockOp.unlock t, s =>
    if s.holds t then
      some { lock := spin_lock.unlock s.lock, holds := Function.update s.holds t false }
    else
      none

/-- The steps of a schedule taken one after another; `none` when the schedule asks a thread
that does not hold the lock to unlock it. -/
def lock_system_run : List LockOp → LockSystem → Option LockSystem
  | [], s => some s
  | op :: rest, s =>
    match lock_system_step op s with
    | none => none
    | some s2 => lock_system_run rest s2

/-- No two threads hold the lock, and the flag is set exactly when some thread holds it. -/
def lock_system_inv (s : LockSystem) : Prop :=
  (∀ i j : Nat, s.holds i = true → s.holds j = true → i = j) ∧
  (s.lock.lock_ = true ↔ ∃ i : Nat, s.holds i = true)

/-! ## Sample objects -/

theorem mod_small_or_wrap (x m : Nat) (hx : x < 2 * m) :
    (x < m ∧ x % m = x) ∨ (m ≤ x ∧ x % m = x - m) := by
  by_cases h : x < m
  · exact Or.inl ⟨h, Nat.mod_eq_of_lt h⟩
  · right
    have h1 : m ≤ x := Nat.le_of_not_lt h
    refine ⟨h1, ?_⟩
    rw [Nat.mod_eq_sub_mod h1]
    exact Nat.mod_eq_of_lt (by omega)

theorem ring_next_eq (m c : Nat) (hc : c < m) :
    (c + 1) % m = if c + 1 = m then 0 else c + 1 := by
  rcases mod_small_or_wrap (c + 1) m (by omega) with ⟨h1, h2⟩ | ⟨h1, h2⟩
  · rw [h2, if_neg (by omega)]
  · rw [h2, if_pos (by omega)]; omega

theorem ring_count_eq (m h t : Nat) (hh : h < m) (ht : t < m) :
    (h + m - t) % m = if t ≤ h then h - t else h + m - t := by
  rcases mod_small_or_wrap (h + m - t) m (by omega) with ⟨h1, h2⟩ | ⟨h1, h2⟩
  · rw [h2, if_neg (by omega)]
  · rw [h2, if_pos (by omega)]; omega

theorem ring_index_eq (m t i : Nat) (ht : t < m) (hi : i < m) :
    (t + i) % m = if t + i < m then t + i else t + i - m := by
  rcases mod_small_or_wrap (t + i) m (by omega) with ⟨h1, h2⟩ | ⟨h1, h2⟩
  · rw [h2, if_pos h1]
  · rw [h2, if_neg (by omega)]

/-! ## The two operations, case by case -/

namespace spsc_queue_plus_one

variable {T : Type} {Size : Nat}

theorem next_lt (Size c : Nat) : next Size c < Size + 1 :=
  Nat.mod_lt _ (Nat.succ_pos Size)

theorem push_of_full (q : spsc_queue_plus_one T Size) (v : T)
    (h : next Size q.head_ = q.tail_) : push q v = some (false, q) := by
  simp only [push, if_pos h]

theorem push_of_not_full (q : spsc_queue_plus_one T Size) (v : T)
    (hidx : q.head_ < Size + 1) (hnf : next Size q.head_ ≠ q.tail_) :
    push q v = some (true, { ring_ := Function.update q.ring_ ⟨q.head_, hidx⟩ v,
                             head_ := next Size q.head_,
                             tail_ := q.tail_ }) := by
  simp only [push, if_neg hnf, dif_pos hidx]

theorem pop_of_empty (mv : T → T → T) (q : spsc_queue_plus_one T Size) (out : T)
    (h : q.tail_ = q.head_) : pop mv q out = some (false, q, out) := by
  simp only [pop, if_pos h]

theorem pop_of_not_empty (mv : T → T → T) (q : spsc_queue_plus_one T Size) (out : T)
    (hidx : q.tail_ < Size + 1) (hne : q.tail_ ≠ q.head_) :
    pop mv q out
      = some (true,
              { ring_ := Function.update q.ring_ ⟨q.tail_, hidx⟩
                           (mv (q.ring_ ⟨q.tail_, hidx⟩) out),
                head_ := q.head_,
                tail_ := next Size q.tail_ },
              q.ring_ ⟨q.tail_, hidx⟩) := by
  simp only [pop, if_neg hne, dif_pos hidx]

theorem slot_update (ring : Fin (Size + 1) → T) (k : Nat) (hk : k < Size + 1) (x : T)
    (hd tl hd2 tl2 i : Nat) :
    slot ({ ring_ := Function.update ring ⟨k, hk⟩ x, head_ := hd, tail_ := tl } :
            spsc_queue_plus_one T Size) i
      = if i % (Size + 1) = k then x
        else slot ({ ring_ := ring, head_ := hd2, tail_ := tl2 } : spsc_queue_plus_one T Size) i := by
  unfold slot
  simp only [Function.update_apply, Fin.mk.injEq]

theorem count_empty_iff (q : spsc_queue_plus_one T Size) (hb : in_bounds q) :
    count q = 0 ↔ q.head_ = q.tail_ := by
  obtain ⟨hh, ht⟩ := hb
  unfold count
  rw [ring_count_eq _ _ _ hh ht]
  split_ifs <;> omega

theorem count_full_iff (q : spsc_queue_plus_one T Size) (hb : in_bounds q) :
    count q = Size ↔ next Size q.head_ = q.tail_ := by
  obtain ⟨hh, ht⟩ := hb
  unfold count next
  rw [ring_count_eq _ _ _ hh ht, ring_next_eq _ _ hh]
  split_ifs <;> omega

theorem count_le (q : spsc_queue_plus_one T Size) : count q ≤ Size := by
  have h : (q.head_ + (Size + 1) - q.tail_) % (Size + 1) < Size + 1 :=
    Nat.mod_lt _ (Nat.succ_pos Size)
  unfold count
  omega

end spsc_queue_plus_one

/-! ## The live range `[tail, head)` under a successful push or pop -/

namespace spsc_queue_plus_one

variable {T : Type} {Size : Nat}

theorem count_after_push (q : spsc_queue_plus_one T Size) (x : T) (hb : in_bounds q)
    (hnf : next Size q.head_ ≠ q.tail_) :
    count ({ ring_ := Function.update q.ring_ ⟨q.head_, hb.1⟩ x,
             head_ := next Size q.head_,
             tail_ := q.tail_ } : spsc_queue_plus_one T Size) = count q + 1 := by
  obtain ⟨hh, ht⟩ := hb
  have hn : next Size q.head_ < Size + 1 := next_lt _ _
  unfold count
  simp only
  rw [ring_count_eq _ _ _ hn ht, ring_count_eq _ _ _ hh ht]
  unfold next at hnf ⊢
  rw [ring_next_eq _ _ hh] at hnf ⊢
  split_ifs at hnf ⊢ <;> omega

theorem live_after_push (q : spsc_queue_plus_one T Size) (x : T) (hb : in_bounds q)
    (hnf : next Size q.head_ ≠ q.tail_) :
    live ({ ring_ := Function.update q.ring_ ⟨q.head_, hb.1⟩ x,
            head_ := next Size q.head_,
            tail_ := q.tail_ } : spsc_queue_plus_one T Size) = live q ++ [x] := by
  have hc := count_after_push q x hb hnf
  obtain ⟨hh, ht⟩ := hb
  have hcnt : count q < Size + 1 := Nat.lt_succ_of_le (count_le q)
  have hcq : count q = if q.tail_ ≤ q.head_ then q.head_ - q.tail_
      else q.head_ + (Size + 1) - q.tail_ := ring_count_eq _ _ _ hh ht
  unfold live
  rw [hc, List.range_succ, List.map_append]
  congr 1
  · apply List.map_congr_left
    intro i hi
    have hi2 : i < count q := List.mem_range.mp hi
    rw [slot_update q.ring_ q.head_ hh x _ _ q.head_ q.tail_]
    have hne : ¬ (q.tail_ + i) % (Size + 1) = q.head_ := by
      rw [ring_index_eq _ _ _ ht (by omega)]
      split_ifs at hcq ⊢ <;> omega
    rw [if_neg hne]
  · simp only [List.map_cons, List.map_nil]
    rw [slot_update q.ring_ q.head_ hh x _ _ q.head_ q.tail_]
    have he : (q.tail_ + count q) % (Size + 1) = q.head_ := by
      rw [ring_index_eq _ _ _ ht hcnt]
      split_ifs at hcq ⊢ <;> omega
    rw [if_pos he]

theorem count_after_pop (q : spsc_queue_plus_one T Size) (x : T) (hb : in_bounds q)
    (hne : q.tail_ ≠ q.head_) :
    count ({ ring_ := Function.update q.ring_ ⟨q.tail_, hb.2⟩ x,
             head_ := q.head_,
             tail_ := next Size q.tail_ } : spsc_queue_plus_one T Size) + 1 = count q := by
  obtain ⟨hh, ht⟩ := hb
  have hn : next Size q.tail_ < Size + 1 := next_lt _ _
  unfold count
  simp only
  rw [ring_count_eq _ _ _ hh hn, ring_count_eq _ _ _ hh ht]
  unfold next
  rw [ring_next_eq _ _ ht]
  split_ifs <;> omega

theorem live_before_pop (q : spsc_queue_plus_one T Size) (x : T) (hb : in_bounds q)
    (hne : q.tail_ ≠ q.head_) :
    live q = q.ring_ ⟨q.tail_, hb.2⟩ ::
      live ({ ring_ := Function.update q.ring_ ⟨q.tail_, hb.2⟩ x,
              head_ := q.head_,
              tail_ := next Size q.tail_ } : spsc_queue_plus_one T Size) := by
  have hc := count_after_pop q x hb hne
  obtain ⟨hh, ht⟩ := hb
  have hcnt : count q < Size + 1 := Nat.lt_succ_of_le (count_le q)
  unfold live
  rw [← hc, List.range_succ_eq_map, List.map_cons, List.map_map]
  congr 1
  · unfold slot
    congr 1
    exact Fin.ext (Nat.mod_eq_of_lt ht)
  · apply List.map_congr_left
    intro i hi
    have hi2 : i + 1 < count q := by
      have := List.mem_range.mp hi
      omega
    simp only [Function.comp_apply]
    rw [slot_update q.ring_ q.tail_ ht x _ _ q.head_ q.tail_]
    have hidx : (next Size q.tail_ + i) % (Size + 1) = (q.tail_ + (i + 1)) % (Size + 1) := by
      unfold next
      rw [Nat.mod_add_mod]
      congr 1
      omega
    have hne2 : ¬ (next Size q.tail_ + i) % (Size + 1) = q.tail_ := by
      rw [hidx, ring_index_eq _ _ _ ht (by omega)]
      split_ifs <;> omega
    rw [if_neg hne2]
    unfold slot
    congr 1
    exact Fin.ext hidx.symm

end spsc_queue_plus_one

/-! ## Sequences of calls -/

namespace spsc_queue_plus_one

variable {T : Type} {Size : Nat}

theorem in_bounds_ctor (ring0 : Fin (Size + 1) → T) :
    in_bounds (ctor ring0 : spsc_queue_plus_one T Size) :=
  ⟨Nat.succ_pos Size, Nat.succ_pos Size⟩

theorem live_of_empty (q : spsc_queue_plus_one T Size) (hb : in_bounds q)
    (he : q.head_ = q.tail_) : live q = [] := by
  unfold live
  rw [(count_empty_iff q hb).mpr he]
  rfl

theorem push_all_room (vs : List T) :
    ∀ q : spsc_queue_plus_one T Size, in_bounds q → count q + vs.length ≤ Size →
      ∃ q2 : spsc_queue_plus_one T Size,
        push_all vs q = some (List.replicate vs.length true, q2) ∧
        in_bounds q2 ∧ q2.tail_ = q.tail_ ∧ count q2 = count q + vs.length ∧
        live q2 = live q ++ vs := by
  induction vs with
  | nil =>
    intro q hb _
    exact ⟨q, rfl, hb, rfl, rfl, by simp⟩
  | cons v vs ih =>
    intro q hb hroom
    have hlen : (v :: vs).length = vs.length + 1 := rfl
    have hnf : next Size q.head_ ≠ q.tail_ := by
      intro hf
      have := (count_full_iff q hb).mpr hf
      omega
    have hb1 : in_bounds ({ ring_ := Function.update q.ring_ ⟨q.head_, hb.1⟩ v,
                            head_ := next Size q.head_,
                            tail_ := q.tail_ } : spsc_queue_plus_one T Size) :=
      ⟨next_lt _ _, hb.2⟩
    have hc := count_after_push q v hb hnf
    have hl := live_after_push q v hb hnf
    obtain ⟨q2, h1, h2, h3, h4, h5⟩ := ih _ hb1 (by omega)
    refine ⟨q2, ?_, h2, h3, ?_, ?_⟩
    · simp only [push_all, push_of_not_full q v hb.1 hnf, h1, List.length_cons,
        List.replicate_succ]
    · rw [h4, hc]; omega
    · rw [h5, hl]; simp

end spsc_queue_plus_one

theorem run_ops_live {T : Type} {Size : Nat} (mv : T → T → T) (ops : List (Op T)) :
    ∀ (q : spsc_queue_plus_one T Size) (out : T), spsc_queue_plus_one.in_bounds q →
      ∃ t : Trace T Size,
        run_ops mv ops q out = some t ∧
        spsc_queue_plus_one.in_bounds t.queue ∧
        spsc_queue_plus_one.live q ++ t.pushed
          = t.popped ++ spsc_queue_plus_one.live t.queue := by
  induction ops with
  | nil =>
    intro q out hb
    exact ⟨{ queue := q, out := out, pushed := [], popped := [] }, rfl, hb, by simp⟩
  | cons op ops ih =>
    intro q out hb
    cases op with
    | push v =>
      by_cases hf : spsc_queue_plus_one.next Size q.head_ = q.tail_
      · obtain ⟨t, h1, h2, h3⟩ := ih q out hb
        refine ⟨{ t with pushed := t.pushed }, ?_, h2, h3⟩
        simp [run_ops, spsc_queue_plus_one.push_of_full q v hf, h1]
      · have hb1 : spsc_queue_plus_one.in_bounds
            ({ ring_ := Function.update q.ring_ ⟨q.head_, hb.1⟩ v,
               head_ := spsc_queue_plus_one.next Size q.head_,
               tail_ := q.tail_ } : spsc_queue_plus_one T Size) :=
          ⟨spsc_queue_plus_one.next_lt _ _, hb.2⟩
        have hl := spsc_queue_plus_one.live_after_push q v hb hf
        obtain ⟨t, h1, h2, h3⟩ := ih _ out hb1
        refine ⟨{ t with pushed := v :: t.pushed }, ?_, h2, ?_⟩
        · simp [run_ops, spsc_queue_plus_one.push_of_not_full q v hb.1 hf, h1]
        · rw [hl] at h3
          simpa using h3
    | pop =>
      by_cases he : q.tail_ = q.head_
      · obtain ⟨t, h1, h2, h3⟩ := ih q out hb
        refine ⟨{ t with popped := t.popped }, ?_, h2, h3⟩
        simp [run_ops, spsc_queue_plus_one.pop_of_empty mv q out he, h1]
      · have hb1 : spsc_queue_plus_one.in_bounds
            ({ ring_ := Function.update q.ring_ ⟨q.tail_, hb.2⟩
                          (mv (q.ring_ ⟨q.tail_, hb.2⟩) out),
               head_ := q.head_,
               tail_ := spsc_queue_plus_one.next Size q.tail_ } : spsc_queue_plus_one T Size) :=
          ⟨hb.1, spsc_queue_plus_one.next_lt _ _⟩
        have hl := spsc_queue_plus_one.live_before_pop q (mv (q.ring_ ⟨q.tail_, hb.2⟩) out) hb he
        obtain ⟨t, h1, h2, h3⟩ := ih _ (q.ring_ ⟨q.tail_, hb.2⟩) hb1
        refine ⟨{ t with popped := q.ring_ ⟨q.tail_, hb.2⟩ :: t.popped }, ?_, h2, ?_⟩
        · simp [run_ops, spsc_queue_plus_one.pop_of_not_empty mv q out hb.2 he, h1]
        · rw [hl]
          simpa using h3

/-! ## Helper facts for the scenarios -/

namespace spsc_queue_plus_one

variable {T : Type} {Size : Nat}

theorem next_ne_self (c : Nat) (hS : 1 ≤ Size) (hc : c < Size + 1) : next Size c ≠ c := by
  unfold next
  rw [ring_next_eq _ _ hc]
  split_ifs <;> omega

theorem pop_n_of_empty (mv : T → T → T) (q : spsc_queue_plus_one T Size) (out : T)
    (he : q.head_ = q.tail_) (n : Nat) :
    pop_n mv n q out = some (List.replicate n false, q, out) := by
  induction n with
  | zero => rfl
  | succ n ih =>
    simp only [pop_n, pop_of_empty mv q out he.symm, ih, List.replicate_succ]

theorem push_all_then_full (q : spsc_queue_plus_one T Size) (hb : in_bounds q)
    (he : q.head_ = q.tail_) (vs : List T) (hlen : vs.length = Size) (v : T) :
    ∃ q2 : spsc_queue_plus_one T Size,
      push_all vs q = some (List.replicate Size true, q2) ∧
      push q2 v = some (false, q2) := by
  have hc0 : count q = 0 := (count_empty_iff q hb).mpr he
  obtain ⟨q2, h1, h2, _, h4, _⟩ := push_all_room vs q hb (by omega)
  refine ⟨q2, ?_, ?_⟩
  · rw [h1, hlen]
  · exact push_of_full q2 v ((count_full_iff q2 h2).mp (by omega))

theorem run_ops_zero (mv : T → T → T) (ring0 : Fin 1 → T) (ops : List (Op T)) :
    ∀ out : T, run_ops mv ops (ctor ring0 : spsc_queue_plus_one T 0) out
      = some { queue := ctor ring0, out := out, pushed := [], popped := [] } := by
  induction ops with
  | nil => intro out; rfl
  | cons op ops ih =>
    intro out
    cases op with
    | push v =>
      have hp : push (ctor ring0 : spsc_queue_plus_one T 0) v = some (false, ctor ring0) :=
        push_of_full _ v (by simp [next, ctor])
      simp [run_ops, hp, ih out]
    | pop =>
      have hp : pop mv (ctor ring0 : spsc_queue_plus_one T 0) out
          = some (false, ctor ring0, out) := pop_of_empty mv _ out rfl
      simp [run_ops, hp, ih out]

end spsc_queue_plus_one

namespace spsc_queue

variable {T : Type}

theorem to_plus_one_injective {n : Nat} (q1 q2 : spsc_queue T (n + 1))
    (h : to_plus_one q1 = to_plus_one q2) : q1 = q2 := by
  cases q1
  cases q2
  simp only [to_plus_one, spsc_queue_plus_one.mk.injEq] at h
  obtain ⟨h1, h2, h3⟩ := h
  subst h1 h2 h3
  rfl

theorem push_to_plus_one {n : Nat} (q : spsc_queue T (n + 1)) (v : T) :
    (push q v).map (fun r => (r.1, to_plus_one r.2))
      = spsc_queue_plus_one.push (to_plus_one q) v := by
  unfold push spsc_queue_plus_one.push
  simp only [next, spsc_queue_plus_one.next, to_plus_one]
  split_ifs <;> rfl

theorem push_all_to_plus_one {n : Nat} (vs : List T) :
    ∀ q : spsc_queue T (n + 1),
      (push_all vs q).map (fun r => (r.1, to_plus_one r.2))
        = spsc_queue_plus_one.push_all vs (to_plus_one q) := by
  induction vs with
  | nil => intro q; rfl
  | cons v vs ih =>
    intro q
    have hp := push_to_plus_one q v
    cases hq : push q v with
    | none =>
      rw [hq] at hp
      simp only [Option.map_none'] at hp
      simp only [push_all, spsc_queue_plus_one.push_all, hq, ← hp, Option.map_none']
    | some r =>
      obtain ⟨b, q1⟩ := r
      rw [hq] at hp
      simp only [Option.map_some'] at hp
      have hi := ih q1
      cases hr : push_all vs q1 with
      | none =>
        rw [hr] at hi
        simp only [Option.map_none'] at hi
        simp only [push_all, spsc_queue_plus_one.push_all, hq, ← hp, hr, ← hi, Option.map_none']
      | some r2 =>
        obtain ⟨bs, q2⟩ := r2
        rw [hr] at hi
        simp only [Option.map_some'] at hi
        simp only [push_all, spsc_queue_plus_one.push_all, hq, ← hp, hr, ← hi, Option.map_some']

theorem push_all_size_one (ring0 : Fin 1 → T) (ws : List T) :
    push_all ws (ctor ring0 : spsc_queue T 1)
      = some (List.replicate ws.length false, ctor ring0) := by
  induction ws with
  | nil => rfl
  | cons w ws ih =>
    have hp : push (ctor ring0 : spsc_queue T 1) w = some (false, ctor ring0) := by
      simp [push, next, ctor]
    simp only [push_all, hp, ih, List.length_cons, List.replicate_succ]

theorem push_all_tight {n : Nat} (ring0 : Fin (n + 1) → T) (vs : List T)
    (hlen : vs.length = n) (v : T) :
    ∃ q2 : spsc_queue T (n + 1),
      push_all vs (ctor ring0) = some (List.replicate n true, q2) ∧
      push q2 v = some (false, q2) := by
  have hb : spsc_queue_plus_one.in_bounds (to_plus_one (ctor ring0 : spsc_queue T (n + 1))) :=
    ⟨Nat.succ_pos n, Nat.succ_pos n⟩
  obtain ⟨p2, h1, h2⟩ :=
    spsc_queue_plus_one.push_all_then_full (to_plus_one (ctor ring0)) hb rfl vs hlen v
  rw [← push_all_to_plus_one] at h1
  obtain ⟨r, hr1, hr2⟩ := Option.map_eq_some'.mp h1
  obtain ⟨bs, q2⟩ := r
  simp only [Prod.mk.injEq] at hr2
  obtain ⟨hbs, hq2⟩ := hr2
  subst hbs hq2
  refine ⟨q2, hr1, ?_⟩
  rw [← push_to_plus_one] at h2
  obtain ⟨r, hr3, hr4⟩ := Option.map_eq_some'.mp h2
  obtain ⟨b, q3⟩ := r
  simp only [Prod.mk.injEq] at hr4
  obtain ⟨hb3, hq3⟩ := hr4
  rw [hr3, hb3, to_plus_one_injective _ _ hq3]

end spsc_queue

/-! ## The contract of `push` and `pop` -/

namespace spsc_queue_plus_one

variable {T : Type} {Size : Nat}

/-- C1. On a queue that is not full (`next(head) != tail`) whose head is a valid index of the
ring, `push(v)` returns `true`, the slot at the old head index holds `v` afterwards, and the
head becomes `(old head + 1) mod (Size + 1)`. -/
theorem push_not_full (q : spsc_queue_plus_one T Size) (v : T)
    (hidx : q.head_ < Size + 1) (hnf : next Size q.head_ ≠ q.tail_) :
    ∃ q2 : spsc_queue_plus_one T Size,
      push q v = some (true, q2) ∧
      q2.ring_ ⟨q.head_, hidx⟩ = v ∧
      q2.head_ = (q.head_ + 1) % (Size + 1) := by
  refine ⟨{ ring_ := Function.update q.ring_ ⟨q.head_, hidx⟩ v,
            head_ := next Size q.head_, tail_ := q.tail_ }, ?_, ?_, ?_⟩
  · simp only [push, if_neg hnf, dif_pos hidx]
  · simp
  · rfl

/-- Witness of C1: a three-slot queue with head `1`, tail `0`. -/
theorem push_not_full_witness :
    ∃ q2 : spsc_queue_plus_one Nat 2,
      push ({ ring_ := fun _ => 0, head_ := 1, tail_ := 0 } : spsc_queue_plus_one Nat 2) 7
        = some (true, q2) ∧
      q2.ring_ ⟨1, by decide⟩ = 7 ∧
      q2.head_ = (1 + 1) % (2 + 1) :=
  push_not_full ({ ring_ := fun _ => 0, head_ := 1, tail_ := 0 } : spsc_queue_plus_one Nat 2) 7
    (by decide) (by decide)

/-- C2. On a full queue (`(head + 1) mod (Size + 1) == tail`) whose head is a valid index of
the ring, `push(v)` returns `false` and the object (head, tail and every slot) is the one it
was. -/
theorem push_full (q : spsc_queue_plus_one T Size) (v : T)
    (hidx : q.head_ < Size + 1) (hfull : (q.head_ + 1) % (Size + 1) = q.tail_) :
    push q v = some (false, q) := by
  have _ := hidx
  have h : next Size q.head_ = q.tail_ := hfull
  simp only [push, if_pos h]

/-- Witness of C2: a full three-slot queue (head `2`, tail `0`). -/
theorem push_full_witness :
    push ({ ring_ := fun _ => 0, head_ := 2, tail_ := 0 } : spsc_queue_plus_one Nat 2) 7
      = some (false, { ring_ := fun _ => 0, head_ := 2, tail_ := 0 }) :=
  push_full ({ ring_ := fun _ => 0, head_ := 2, tail_ := 0 } : spsc_queue_plus_one Nat 2) 7
    (by decide) (by decide)

/-- C3. On a queue that is not empty (`head != tail`) whose tail is a valid index of the ring,
`pop(out)` returns `true`, `out` receives the value stored in the slot at the old tail index,
and the tail becomes `(old tail + 1) mod (Size + 1)`. -/
theorem pop_not_empty (mv : T → T → T) (q : spsc_queue_plus_one T Size) (out : T)
    (hidx : q.tail_ < Size + 1) (hne : q.head_ ≠ q.tail_) :
    ∃ q2 : spsc_queue_plus_one T Size,
      pop mv q out = some (true, q2, q.ring_ ⟨q.tail_, hidx⟩) ∧
      q2.tail_ = (q.tail_ + 1) % (Size + 1) := by
  have hne2 : ¬ q.tail_ = q.head_ := fun h => hne h.symm
  refine ⟨{ ring_ := Function.update q.ring_ ⟨q.tail_, hidx⟩
                        (mv (q.ring_ ⟨q.tail_, hidx⟩) out),
            head_ := q.head_, tail_ := next Size q.tail_ }, ?_, ?_⟩
  · simp only [pop, if_neg hne2, dif_pos hidx]
  · rfl

/-- Witness of C3: a three-slot queue holding one element. -/
theorem pop_not_empty_witness :
    ∃ q2 : spsc_queue_plus_one Nat 2,
      pop copy_move ({ ring_ := fun _ => 5, head_ := 1, tail_ := 0 } : spsc_queue_plus_one Nat 2) 9
        = some (true, q2, (fun _ => 5) (⟨0, by decide⟩ : Fin 3)) ∧
      q2.tail_ = (0 + 1) % (2 + 1) :=
  pop_not_empty copy_move
    ({ ring_ := fun _ => 5, head_ := 1, tail_ := 0 } : spsc_queue_plus_one Nat 2) 9
    (by decide) (by decide)

/-- C4. On an empty queue (`head == tail`), `pop(out)` returns `false` and leaves the object
(head, tail and every slot) and the caller's variable as they were; so does any number of
consecutive pops; in particular a freshly constructed queue answers `false` to any number of
consecutive pops and its cursors stay `0`. -/
theorem pop_empty (mv : T → T → T) (q : spsc_queue_plus_one T Size) (out : T)
    (hempty : q.head_ = q.tail_) :
    pop mv q out = some (false, q, out) ∧
    (∀ n : Nat, pop_n mv n q out = some (List.replicate n false, q, out)) ∧
    (∀ (ring0 : Fin (Size + 1) → T) (n : Nat),
      ∃ q2 : spsc_queue_plus_one T Size,
        pop_n mv n (ctor ring0) out = some (List.replicate n false, q2, out) ∧
        q2.ring_ = ring0 ∧ q2.head_ = 0 ∧ q2.tail_ = 0) :=
  ⟨pop_of_empty mv q out hempty.symm,
   fun n => pop_n_of_empty mv q out hempty n,
   fun ring0 n => ⟨ctor ring0, pop_n_of_empty mv (ctor ring0) out rfl n, rfl, rfl, rfl⟩⟩

/-- Witness of C4: an empty three-slot queue whose cursors are both `1`. -/
theorem pop_empty_witness :
    pop copy_move ({ ring_ := fun _ => 0, head_ := 1, tail_ := 1 } : spsc_queue_plus_one Nat 2) 9
      = some (false, { ring_ := fun _ => 0, head_ := 1, tail_ := 1 }, 9) ∧
    (∀ n : Nat,
      pop_n copy_move n
          ({ ring_ := fun _ => 0, head_ := 1, tail_ := 1 } : spsc_queue_plus_one Nat 2) 9
        = some (List.replicate n false, { ring_ := fun _ => 0, head_ := 1, tail_ := 1 }, 9)) ∧
    (∀ (ring0 : Fin (2 + 1) → Nat) (n : Nat),
      ∃ q2 : spsc_queue_plus_one Nat 2,
        pop_n copy_move n (ctor ring0) 9 = some (List.replicate n false, q2, 9) ∧
        q2.ring_ = ring0 ∧ q2.head_ = 0 ∧ q2.tail_ = 0) :=
  pop_empty copy_move
    ({ ring_ := fun _ => 0, head_ := 1, tail_ := 1 } : spsc_queue_plus_one Nat 2) 9 rfl

end spsc_queue_plus_one

/-! ## Scenarios -/

/-- C5. FIFO in the sequential model: whatever finite sequence of `push(v)` and `pop` calls is
applied one after another to a freshly constructed `spsc_queue_plus_one`, the execution is
defined, and the values received by the successful pops, in order, are a prefix of the values
of the successful pushes, in order. -/
theorem fifo_sequential {T : Type} {Size : Nat} (mv : T → T → T) (ops : List (Op T))
    (ring0 : Fin (Size + 1) → T) (out0 : T) :
    ∃ t : Trace T Size,
      run_ops mv ops (spsc_queue_plus_one.ctor ring0) out0 = some t ∧
      ∃ rest : List T, t.popped ++ rest = t.pushed := by
  obtain ⟨t, h1, h2, h3⟩ :=
    run_ops_live mv ops (spsc_queue_plus_one.ctor ring0) out0
      (spsc_queue_plus_one.in_bounds_ctor ring0)
  refine ⟨t, h1, spsc_queue_plus_one.live t.queue, ?_⟩
  rw [← h3, spsc_queue_plus_one.live_of_empty _ (spsc_queue_plus_one.in_bounds_ctor ring0) rfl]
  rfl

namespace spsc_queue_plus_one

variable {T : Type} {Size : Nat}

/-- C6. From every empty state (`head == tail == k` with `k <= Size`, the freshly constructed
queue being `k = 0`), `Size` successive pushes with no intervening pop all return `true`, and
the push after them returns `false` and leaves every slot and both cursors as they were. -/
theorem accepts_exactly_capacity (q : spsc_queue_plus_one T Size) (k : Nat) (hk : k ≤ Size)
    (hhead : q.head_ = k) (htail : q.tail_ = k) (vs : List T) (hlen : vs.length = Size)
    (v : T) :
    ∃ q2 : spsc_queue_plus_one T Size,
      push_all vs q = some (List.replicate Size true, q2) ∧
      push q2 v = some (false, q2) :=
  push_all_then_full q ⟨by omega, by omega⟩ (by omega) vs hlen v

/-- Witness of C6: a two-element queue whose cursors are both `2`, pushes wrapping around. -/
theorem accepts_exactly_capacity_witness :
    ∃ q2 : spsc_queue_plus_one Nat 2,
      push_all [10, 11]
          ({ ring_ := fun _ => 0, head_ := 2, tail_ := 2 } : spsc_queue_plus_one Nat 2)
        = some (List.replicate 2 true, q2) ∧
      push q2 12 = some (false, q2) :=
  accepts_exactly_capacity
    ({ ring_ := fun _ => 0, head_ := 2, tail_ := 2 } : spsc_queue_plus_one Nat 2) 2
    (by decide) rfl rfl [10, 11] rfl 12

/-- C7. From every full state of a queue with `Size >= 1` (head a valid index,
`next(head) == tail`): one pop succeeds, the push after it returns `true`, and the push after
that returns `false`. -/
theorem one_pop_one_push (mv : T → T → T) (q : spsc_queue_plus_one T Size) (hS : 1 ≤ Size)
    (hidx : q.head_ < Size + 1) (hfull : next Size q.head_ = q.tail_) (out v1 v2 : T) :
    ∃ (q1 : spsc_queue_plus_one T Size) (x : T) (q2 : spsc_queue_plus_one T Size),
      pop mv q out = some (true, q1, x) ∧
      push q1 v1 = some (true, q2) ∧
      push q2 v2 = some (false, q2) := by
  have ht : q.tail_ < Size + 1 := hfull ▸ next_lt Size q.head_
  have hne : q.tail_ ≠ q.head_ := hfull ▸ next_ne_self q.head_ hS hidx
  have hnt : next Size q.tail_ ≠ q.tail_ := next_ne_self q.tail_ hS ht
  have hpush := push_of_not_full
    ({ ring_ := Function.update q.ring_ ⟨q.tail_, ht⟩ (mv (q.ring_ ⟨q.tail_, ht⟩) out),
       head_ := q.head_, tail_ := next Size q.tail_ } : spsc_queue_plus_one T Size) v1 hidx
    (by rw [hfull]; exact hnt.symm)
  refine ⟨_, _, _, pop_of_not_empty mv q out ht hne, hpush, ?_⟩
  exact push_of_full _ v2 (by simp only [hfull])

/-- Witness of C7: a full three-slot queue (head `2`, tail `0`). -/
theorem one_pop_one_push_witness :
    ∃ (q1 : spsc_queue_plus_one Nat 2) (x : Nat) (q2 : spsc_queue_plus_one Nat 2),
      pop copy_move ({ ring_ := fun _ => 0, head_ := 2, tail_ := 0 } : spsc_queue_plus_one Nat 2) 9
        = some (true, q1, x) ∧
      push q1 7 = some (true, q2) ∧
      push q2 8 = some (false, q2) :=
  one_pop_one_push copy_move
    ({ ring_ := fun _ => 0, head_ := 2, tail_ := 0 } : spsc_queue_plus_one Nat 2)
    (by decide) (by decide) (by decide) 9 7 8

/-- C8. Round trip: on an empty queue (`head == tail`, a valid index) with `Size >= 1`,
`push(v)` followed by `pop(out)` both succeed, `out` receives `v`, and the queue is empty
again. -/
theorem push_pop_round_trip (mv : T → T → T) (q : spsc_queue_plus_one T Size) (hS : 1 ≤ Size)
    (hidx : q.head_ < Size + 1) (hempty : q.head_ = q.tail_) (v out : T) :
    ∃ q1 q2 : spsc_queue_plus_one T Size,
      push q v = some (true, q1) ∧
      pop mv q1 out = some (true, q2, v) ∧
      q2.head_ = q2.tail_ := by
  have ht : q.tail_ < Size + 1 := hempty ▸ hidx
  have hnf : next Size q.head_ ≠ q.tail_ := hempty ▸ next_ne_self q.head_ hS hidx
  have hpop := pop_of_not_empty mv
    ({ ring_ := Function.update q.ring_ ⟨q.head_, hidx⟩ v,
       head_ := next Size q.head_, tail_ := q.tail_ } : spsc_queue_plus_one T Size) out ht
    (fun h => hnf h.symm)
  have hval : Function.update q.ring_ ⟨q.head_, hidx⟩ v ⟨q.tail_, ht⟩ = v := by
    have : (⟨q.tail_, ht⟩ : Fin (Size + 1)) = ⟨q.head_, hidx⟩ := Fin.ext hempty.symm
    rw [this, Function.update_same]
  simp only [hval] at hpop
  refine ⟨_, _, push_of_not_full q v hidx hnf, hpop, ?_⟩
  simp only [hempty]

/-- Witness of C8: an empty three-slot queue whose cursors are both `2`. -/
theorem push_pop_round_trip_witness :
    ∃ q1 q2 : spsc_queue_plus_one Nat 2,
      push ({ ring_ := fun _ => 0, head_ := 2, tail_ := 2 } : spsc_queue_plus_one Nat 2) 7
        = some (true, q1) ∧
      pop copy_move q1 9 = some (true, q2, 7) ∧
      q2.head_ = q2.tail_ :=
  push_pop_round_trip copy_move
    ({ ring_ := fun _ => 0, head_ := 2, tail_ := 2 } : spsc_queue_plus_one Nat 2)
    (by decide) (by decide) rfl 7 9

end spsc_queue_plus_one

/-- C9. The tight variant `spsc_queue<T, C>` with `C >= 1` holds only `C - 1` elements: from
the freshly constructed queue `C - 1` successive pushes return `true` and the push after them
returns `false` (leaving the object as it was); for `C = 1` every push returns `false`. -/
theorem tight_variant_holds_one_less {T : Type} (C : Nat) (hC : 1 ≤ C) (ring0 : Fin C → T)
    (vs : List T) (hlen : vs.length = C - 1) (v : T) :
    (∃ q2 : spsc_queue T C,
      spsc_queue.push_all vs (spsc_queue.ctor ring0) = some (List.replicate (C - 1) true, q2) ∧
      spsc_queue.push q2 v = some (false, q2)) ∧
    (C = 1 → ∀ ws : List T,
      spsc_queue.push_all ws (spsc_queue.ctor ring0)
        = some (List.replicate ws.length false, spsc_queue.ctor ring0)) := by
  obtain ⟨n, rfl⟩ : ∃ n, C = n + 1 := ⟨C - 1, by omega⟩
  refine ⟨spsc_queue.push_all_tight ring0 vs (by simpa using hlen) v, ?_⟩
  intro h1 ws
  obtain rfl : n = 0 := by omega
  exact spsc_queue.push_all_size_one ring0 ws

/-- Witness of C9: `spsc_queue<Nat, 3>` accepts two pushes and refuses the third. -/
theorem tight_variant_holds_one_less_witness :
    (∃ q2 : spsc_queue Nat 3,
      spsc_queue.push_all [10, 11] (spsc_queue.ctor (fun _ => 0))
        = some (List.replicate (3 - 1) true, q2) ∧
      spsc_queue.push q2 12 = some (false, q2)) ∧
    (3 = 1 → ∀ ws : List Nat,
      spsc_queue.push_all ws (spsc_queue.ctor (fun _ => 0) : spsc_queue Nat 3)
        = some (List.replicate ws.length false, spsc_queue.ctor (fun _ => 0))) :=
  tight_variant_holds_one_less 3 (by decide) (fun _ => 0) [10, 11] rfl 12

/-- C10, as stated, fails: the constructor of `spsc_queue_plus_one<Nat, 0>` yields an object,
and on that object every push returns `false`. -/
theorem zero_capacity_constructs :
    ∃ q : spsc_queue_plus_one Nat 0,
      q = spsc_queue_plus_one.ctor (fun _ => 0) ∧
      ∀ v : Nat, spsc_queue_plus_one.push q v = some (false, q) :=
  ⟨spsc_queue_plus_one.ctor (fun _ => 0), rfl,
   fun v => spsc_queue_plus_one.push_of_full _ v (by decide)⟩

/-- C10, amended. Construction of `spsc_queue_plus_one<T, 0>` does not fail: the constructor
yields the object with `head = tail = 0`, and under every sequence of calls each push and each
pop returns `false` and the object stays as constructed. -/
theorem zero_capacity_never_accepts {T : Type} (mv : T → T → T) (ring0 : Fin 1 → T)
    (ops : List (Op T)) (out : T) :
    (spsc_queue_plus_one.ctor ring0 : spsc_queue_plus_one T 0).head_ = 0 ∧
    (spsc_queue_plus_one.ctor ring0 : spsc_queue_plus_one T 0).tail_ = 0 ∧
    (∀ v : T, spsc_queue_plus_one.push (spsc_queue_plus_one.ctor ring0 : spsc_queue_plus_one T 0) v
      = some (false, spsc_queue_plus_one.ctor ring0)) ∧
    run_ops mv ops (spsc_queue_plus_one.ctor ring0 : spsc_queue_plus_one T 0) out
      = some { queue := spsc_queue_plus_one.ctor ring0, out := out, pushed := [], popped := [] } :=
  ⟨rfl, rfl,
   fun v => spsc_queue_plus_one.push_of_full _ v (by simp [spsc_queue_plus_one.next,
     spsc_queue_plus_one.ctor]),
   spsc_queue_plus_one.run_ops_zero mv ring0 ops out⟩

/-! ## Locks: acquiring a free lock, spinning on a held one -/

theorem spin_lock.lock_of_free (fuel : Nat) (hf : 1 ≤ fuel) (l : spin_lock)
    (hfree : l.lock_ = false) :
    spin_lock.lock fuel l = some { lock_ := true, releases := l.releases } := by
  obtain ⟨n, rfl⟩ : ∃ n, fuel = n + 1 := ⟨fuel - 1, by omega⟩
  simp only [spin_lock.lock, spin_lock.try_lock, hfree, Bool.not_false]

theorem spin_lock.spin_wait_of_held (fuel : Nat) (l : spin_lock) (hheld : l.lock_ = true) :
    spin_lock.spin_wait fuel l = none := by
  induction fuel with
  | zero => rfl
  | succ n ih => simp only [spin_lock.spin_wait, hheld, if_true, ih]

theorem spin_lock.lock_of_held (fuel : Nat) (l : spin_lock) (hheld : l.lock_ = true) :
    spin_lock.lock fuel l = none := by
  cases fuel with
  | zero => rfl
  | succ n =>
    simp only [spin_lock.lock, spin_lock.try_lock, hheld, Bool.not_true]
    rw [spin_lock.spin_wait_of_held n _ rfl]

/-! ## Every variant runs the protocol of `spsc_queue_plus_one` -/

namespace spsc_queue_double_spin_lock

variable {T : Type} {Size : Nat}

theorem double_spin_lock_push_sim (fuel : Nat) (hf : 1 ≤ fuel)
    (q : spsc_queue_double_spin_lock T Size) (v : T)
    (hr : q.read.lock_ = false ∧ q.write.lock_ = false) :
    (push fuel q v).map (fun r => (r.1, to_plus_one r.2))
      = spsc_queue_plus_one.push (to_plus_one q) v := by
  unfold push spsc_queue_plus_one.push
  simp only [scoped_spin_lock.ctor, scoped_spin_lock.dtor, spin_lock.lock_of_free fuel hf q.write hr.2, next,
    spsc_queue_plus_one.next, to_plus_one]
  split_ifs <;> rfl

theorem double_spin_lock_pop_sim (fuel : Nat) (hf : 1 ≤ fuel) (mv : T → T → T)
    (q : spsc_queue_double_spin_lock T Size) (out : T)
    (hr : q.read.lock_ = false ∧ q.write.lock_ = false) :
    (pop fuel mv q out).map (fun r => (r.1, to_plus_one r.2.1, r.2.2))
      = spsc_queue_plus_one.pop mv (to_plus_one q) out := by
  unfold pop spsc_queue_plus_one.pop
  simp only [scoped_spin_lock.ctor, scoped_spin_lock.dtor, spin_lock.lock_of_free fuel hf q.read hr.1, next,
    spsc_queue_plus_one.next, to_plus_one]
  split_ifs <;> rfl

theorem double_spin_lock_push_ready (fuel : Nat) (hf : 1 ≤ fuel)
    (q : spsc_queue_double_spin_lock T Size) (v : T)
    (hr : q.read.lock_ = false ∧ q.write.lock_ = false) (b : Bool)
    (q2 : spsc_queue_double_spin_lock T Size)
    (h : push fuel q v = some (b, q2)) : q2.read.lock_ = false ∧ q2.write.lock_ = false := by
  unfold push at h
  simp only [scoped_spin_lock.ctor, scoped_spin_lock.dtor, spin_lock.lock_of_free fuel hf q.write hr.2, spin_lock.unlock] at h
  split_ifs at h <;> simp only [Option.some.injEq, Prod.mk.injEq] at h <;>
    obtain ⟨_, rfl⟩ := h <;> simp [hr]

theorem double_spin_lock_pop_ready (fuel : Nat) (hf : 1 ≤ fuel) (mv : T → T → T)
    (q : spsc_queue_double_spin_lock T Size) (out : T)
    (hr : q.read.lock_ = false ∧ q.write.lock_ = false) (b : Bool)
    (q2 : spsc_queue_double_spin_lock T Size) (x : T)
    (h : pop fuel mv q out = some (b, q2, x)) : q2.read.lock_ = false ∧ q2.write.lock_ = false := by
  unfold pop at h
  simp only [scoped_spin_lock.ctor, scoped_spin_lock.dtor, spin_lock.lock_of_free fuel hf q.read hr.1, spin_lock.unlock] at h
  split_ifs at h <;> simp only [Option.some.injEq, Prod.mk.injEq] at h <;>
    obtain ⟨_, rfl, _⟩ := h <;> simp [hr]

end spsc_queue_double_spin_lock

namespace spsc_queue_single_spin_lock

variable {T : Type} {Size : Nat}

theorem single_spin_lock_push_sim (fuel : Nat) (hf : 1 ≤ fuel)
    (q : spsc_queue_single_spin_lock T Size) (v : T)
    (hr : q.lock.lock_ = false) :
    (push fuel q v).map (fun r => (r.1, to_plus_one r.2))
      = spsc_queue_plus_one.push (to_plus_one q) v := by
  unfold push spsc_queue_plus_one.push
  simp only [scoped_spin_lock.ctor, scoped_spin_lock.dtor, spin_lock.lock_of_free fuel hf q.lock hr, next,
    spsc_queue_plus_one.next, to_plus_one]
  split_ifs <;> rfl

theorem single_spin_lock_pop_sim (fuel : Nat) (hf : 1 ≤ fuel) (mv : T → T → T)
    (q : spsc_queue_single_spin_lock T Size) (out : T)
    (hr : q.lock.lock_ = false) :
    (pop fuel mv q out).map (fun r => (r.1, to_plus_one r.2.1, r.2.2))
      = spsc_queue_plus_one.pop mv (to_plus_one q) out := by
  unfold pop spsc_queue_plus_one.pop
  simp only [scoped_spin_lock.ctor, scoped_spin_lock.dtor, spin_lock.lock_of_free fuel hf q.lock hr, next,
    spsc_queue_plus_one.next, to_plus_one]
  split_ifs <;> rfl

theorem single_spin_lock_push_ready (fuel : Nat) (hf : 1 ≤ fuel)
    (q : spsc_queue_single_spin_lock T Size) (v : T)
    (hr : q.lock.lock_ = false) (b : Bool) (q2 : spsc_queue_single_spin_lock T Size)
    (h : push fuel q v = some (b, q2)) : q2.lock.lock_ = false := by
  unfold push at h
  simp only [scoped_spin_lock.ctor, scoped_spin_lock.dtor, spin_lock.lock_of_free fuel hf q.lock hr, spin_lock.unlock] at h
  split_ifs at h <;> simp only [Option.some.injEq, Prod.mk.injEq] at h <;>
    obtain ⟨_, rfl⟩ := h <;> simp [hr]

theorem single_spin_lock_pop_ready (fuel : Nat) (hf : 1 ≤ fuel) (mv : T → T → T)
    (q : spsc_queue_single_spin_lock T Size) (out : T)
    (hr : q.lock.lock_ = false) (b : Bool) (q2 : spsc_queue_single_spin_lock T Size) (x : T)
    (h : pop fuel mv q out = some (b, q2, x)) : q2.lock.lock_ = false := by
  unfold pop at h
  simp only [scoped_spin_lock.ctor, scoped_spin_lock.dtor, spin_lock.lock_of_free fuel hf q.lock hr, spin_lock.unlock] at h
  split_ifs at h <;> simp only [Option.some.injEq, Prod.mk.injEq] at h <;>
    obtain ⟨_, rfl, _⟩ := h <;> simp [hr]

end spsc_queue_single_spin_lock

namespace spsc_queue_double_mutex

variable {T : Type} {Size : Nat}

theorem double_mutex_push_sim (q : spsc_queue_double_mutex T Size) (v : T)
    (hr : q.read.locked = false ∧ q.write.locked = false) :
    (push q v).map (fun r => (r.1, to_plus_one r.2))
      = spsc_queue_plus_one.push (to_plus_one q) v := by
  unfold push spsc_queue_plus_one.push
  simp only [std.scoped_lock.ctor, std.scoped_lock.dtor, std.mutex.lock, std.mutex.unlock,
    Bool.false_eq_true, if_false, hr.2, next, spsc_queue_plus_one.next, to_plus_one]
  split_ifs <;> rfl

theorem double_mutex_pop_sim (mv : T → T → T) (q : spsc_queue_double_mutex T Size) (out : T)
    (hr : q.read.locked = false ∧ q.write.locked = false) :
    (pop mv q out).map (fun r => (r.1, to_plus_one r.2.1, r.2.2))
      = spsc_queue_plus_one.pop mv (to_plus_one q) out := by
  unfold pop spsc_queue_plus_one.pop
  simp only [std.scoped_lock.ctor, std.scoped_lock.dtor, std.mutex.lock, std.mutex.unlock,
    Bool.false_eq_true, if_false, hr.1, next, spsc_queue_plus_one.next, to_plus_one]
  split_ifs <;> rfl

theorem double_mutex_push_ready (q : spsc_queue_double_mutex T Size) (v : T)
    (hr : q.read.locked = false ∧ q.write.locked = false) (b : Bool)
    (q2 : spsc_queue_double_mutex T Size)
    (h : push q v = some (b, q2)) : q2.read.locked = false ∧ q2.write.locked = false := by
  unfold push at h
  simp only [std.scoped_lock.ctor, std.scoped_lock.dtor, std.mutex.lock, std.mutex.unlock,
    Bool.false_eq_true, if_false, hr.2] at h
  split_ifs at h <;> simp only [Option.some.injEq, Prod.mk.injEq] at h <;>
    obtain ⟨_, rfl⟩ := h <;> simp [hr]

theorem double_mutex_pop_ready (mv : T → T → T) (q : spsc_queue_double_mutex T Size) (out : T)
    (hr : q.read.locked = false ∧ q.write.locked = false) (b : Bool)
    (q2 : spsc_queue_double_mutex T Size) (x : T)
    (h : pop mv q out = some (b, q2, x)) : q2.read.locked = false ∧ q2.write.locked = false := by
  unfold pop at h
  simp only [std.scoped_lock.ctor, std.scoped_lock.dtor, std.mutex.lock, std.mutex.unlock,
    Bool.false_eq_true, if_false, hr.1] at h
  split_ifs at h <;> simp only [Option.some.injEq, Prod.mk.injEq] at h <;>
    obtain ⟨_, rfl, _⟩ := h <;> simp [hr]

end spsc_queue_double_mutex

namespace spsc_queue_single_mutex

variable {T : Type} {Size : Nat}

theorem single_mutex_push_sim (q : spsc_queue_single_mutex T Size) (v : T)
    (hr : q.lock.locked = false) :
    (push q v).map (fun r => (r.1, to_plus_one r.2))
      = spsc_queue_plus_one.push (to_plus_one q) v := by
  unfold push spsc_queue_plus_one.push
  simp only [std.scoped_lock.ctor, std.scoped_lock.dtor, std.mutex.lock, std.mutex.unlock,
    Bool.false_eq_true, if_false, hr, next, spsc_queue_plus_one.next, to_plus_one]
  split_ifs <;> rfl

theorem single_mutex_pop_sim (mv : T → T → T) (q : spsc_queue_single_mutex T Size) (out : T)
    (hr : q.lock.locked = false) :
    (pop mv q out).map (fun r => (r.1, to_plus_one r.2.1, r.2.2))
      = spsc_queue_plus_one.pop mv (to_plus_one q) out := by
  unfold pop spsc_queue_plus_one.pop
  simp only [std.scoped_lock.ctor, std.scoped_lock.dtor, std.mutex.lock, std.mutex.unlock,
    Bool.false_eq_true, if_false, hr, next, spsc_queue_plus_one.next, to_plus_one]
  split_ifs <;> rfl

theorem single_mutex_push_ready (q : spsc_queue_single_mutex T Size) (v : T)
    (hr : q.lock.locked = false) (b : Bool)
    (q2 : spsc_queue_single_mutex T Size)
    (h : push q v = some (b, q2)) : q2.lock.locked = false := by
  unfold push at h
  simp only [std.scoped_lock.ctor, std.scoped_lock.dtor, std.mutex.lock, std.mutex.unlock,
    Bool.false_eq_true, if_false, hr] at h
  split_ifs at h <;> simp only [Option.some.injEq, Prod.mk.injEq] at h <;>
    obtain ⟨_, rfl⟩ := h <;> simp [hr]

theorem single_mutex_pop_ready (mv : T → T → T) (q : spsc_queue_single_mutex T Size) (out : T)
    (hr : q.lock.locked = false) (b : Bool)
    (q2 : spsc_queue_single_mutex T Size) (x : T)
    (h : pop mv q out = some (b, q2, x)) : q2.lock.locked = false := by
  unfold pop at h
  simp only [std.scoped_lock.ctor, std.scoped_lock.dtor, std.mutex.lock, std.mutex.unlock,
    Bool.false_eq_true, if_false, hr] at h
  split_ifs at h <;> simp only [Option.some.injEq, Prod.mk.injEq] at h <;>
    obtain ⟨_, rfl, _⟩ := h <;> simp [hr]

end spsc_queue_single_mutex

namespace spsc_queue_spin_lock_no_atomic

variable {T : Type} {Size : Nat}

theorem spin_lock_no_atomic_push_sim (fuel : Nat) (hf : 1 ≤ fuel)
    (q : spsc_queue_spin_lock_no_atomic T Size) (v : T)
    (hr : q.write.lock_ = false) :
    (push fuel q v).map (fun r => (r.1, to_plus_one r.2))
      = spsc_queue_plus_one.push (to_plus_one q) v := by
  unfold push spsc_queue_plus_one.push
  simp only [scoped_spin_lock.ctor, scoped_spin_lock.dtor, spin_lock.lock_of_free fuel hf q.write hr, next,
    spsc_queue_plus_one.next, to_plus_one]
  split_ifs <;> rfl

theorem spin_lock_no_atomic_pop_sim (fuel : Nat) (hf : 1 ≤ fuel) (mv : T → T → T)
    (q : spsc_queue_spin_lock_no_atomic T Size) (out : T)
    (hr : q.write.lock_ = false) :
    (pop fuel mv q out).map (fun r => (r.1, to_plus_one r.2.1, r.2.2))
      = spsc_queue_plus_one.pop mv (to_plus_one q) out := by
  unfold pop spsc_queue_plus_one.pop
  simp only [scoped_spin_lock.ctor, scoped_spin_lock.dtor, spin_lock.lock_of_free fuel hf q.write hr, next,
    spsc_queue_plus_one.next, to_plus_one]
  split_ifs <;> rfl

theorem spin_lock_no_atomic_push_ready (fuel : Nat) (hf : 1 ≤ fuel)
    (q : spsc_queue_spin_lock_no_atomic T Size) (v : T)
    (hr : q.write.lock_ = false) (b : Bool) (q2 : spsc_queue_spin_lock_no_atomic T Size)
    (h : push fuel q v = some (b, q2)) : q2.write.lock_ = false := by
  unfold push at h
  simp only [scoped_spin_lock.ctor, scoped_spin_lock.dtor, spin_lock.lock_of_free fuel hf q.write hr, spin_lock.unlock] at h
  split_ifs at h <;> simp only [Option.some.injEq, Prod.mk.injEq] at h <;>
    obtain ⟨_, rfl⟩ := h <;> simp [hr]

theorem spin_lock_no_atomic_pop_ready (fuel : Nat) (hf : 1 ≤ fuel) (mv : T → T → T)
    (q : spsc_queue_spin_lock_no_atomic T Size) (out : T)
    (hr : q.write.lock_ = false) (b : Bool) (q2 : spsc_queue_spin_lock_no_atomic T Size) (x : T)
    (h : pop fuel mv q out = some (b, q2, x)) : q2.write.lock_ = false := by
  unfold pop at h
  simp only [scoped_spin_lock.ctor, scoped_spin_lock.dtor, spin_lock.lock_of_free fuel hf q.write hr, spin_lock.unlock] at h
  split_ifs at h <;> simp only [Option.some.injEq, Prod.mk.injEq] at h <;>
    obtain ⟨_, rfl, _⟩ := h <;> simp [hr]

end spsc_queue_spin_lock_no_atomic

namespace spsc_queue_spin_lock_no_raii

variable {T : Type} {Size : Nat}

theorem spin_lock_no_raii_push_sim (fuel : Nat) (hf : 1 ≤ fuel)
    (q : spsc_queue_spin_lock_no_raii T Size) (v : T)
    (hr : q.read.lock_ = false ∧ q.write.lock_ = false) :
    (push fuel q v).map (fun r => (r.1, to_plus_one r.2))
      = spsc_queue_plus_one.push (to_plus_one q) v := by
  unfold push spsc_queue_plus_one.push
  simp only [spin_lock.lock_of_free fuel hf q.write hr.2, next,
    spsc_queue_plus_one.next, to_plus_one]
  split_ifs <;> rfl

theorem spin_lock_no_raii_pop_sim (fuel : Nat) (hf : 1 ≤ fuel) (mv : T → T → T)
    (q : spsc_queue_spin_lock_no_raii T Size) (out : T)
    (hr : q.read.lock_ = false ∧ q.write.lock_ = false) :
    (pop fuel mv q out).map (fun r => (r.1, to_plus_one r.2.1, r.2.2))
      = spsc_queue_plus_one.pop mv (to_plus_one q) out := by
  unfold pop spsc_queue_plus_one.pop
  simp only [spin_lock.lock_of_free fuel hf q.read hr.1, next,
    spsc_queue_plus_one.next, to_plus_one]
  split_ifs <;> rfl

theorem spin_lock_no_raii_push_ready (fuel : Nat) (hf : 1 ≤ fuel)
    (q : spsc_queue_spin_lock_no_raii T Size) (v : T)
    (hr : q.read.lock_ = false ∧ q.write.lock_ = false) (b : Bool)
    (q2 : spsc_queue_spin_lock_no_raii T Size)
    (h : push fuel q v = some (b, q2)) : q2.read.lock_ = false ∧ q2.write.lock_ = false := by
  unfold push at h
  simp only [spin_lock.lock_of_free fuel hf q.write hr.2, spin_lock.unlock] at h
  split_ifs at h <;> simp only [Option.some.injEq, Prod.mk.injEq] at h <;>
    obtain ⟨_, rfl⟩ := h <;> simp [hr]

theorem spin_lock_no_raii_pop_ready (fuel : Nat) (hf : 1 ≤ fuel) (mv : T → T → T)
    (q : spsc_queue_spin_lock_no_raii T Size) (out : T)
    (hr : q.read.lock_ = false ∧ q.write.lock_ = false) (b : Bool)
    (q2 : spsc_queue_spin_lock_no_raii T Size) (x : T)
    (h : pop fuel mv q out = some (b, q2, x)) : q2.read.lock_ = false ∧ q2.write.lock_ = false := by
  unfold pop at h
  simp only [spin_lock.lock_of_free fuel hf q.read hr.1, spin_lock.unlock] at h
  split_ifs at h <;> simp only [Option.some.injEq, Prod.mk.injEq] at h <;>
    obtain ⟨_, rfl, _⟩ := h <;> simp [hr]

end spsc_queue_spin_lock_no_raii

namespace spsc_queue_no_false_sharing

variable {T : Type} {Size : Nat}

theorem no_false_sharing_push_sim (q : spsc_queue_no_false_sharing T Size) (v : T) :
    (push q v).map (fun r => (r.1, to_plus_one r.2))
      = spsc_queue_plus_one.push (to_plus_one q) v := by
  unfold push spsc_queue_plus_one.push
  simp only [next, spsc_queue_plus_one.next, to_plus_one]
  split_ifs <;> rfl

theorem no_false_sharing_pop_sim (mv : T → T → T) (q : spsc_queue_no_false_sharing T Size)
    (out : T) :
    (pop mv q out).map (fun r => (r.1, to_plus_one r.2.1, r.2.2))
      = spsc_queue_plus_one.pop mv (to_plus_one q) out := by
  unfold pop spsc_queue_plus_one.pop
  simp only [next, spsc_queue_plus_one.next, to_plus_one]
  split_ifs <;> rfl

end spsc_queue_no_false_sharing

theorem spsc_queue.pop_to_plus_one {T : Type} {n : Nat} (mv : T → T → T)
    (q : spsc_queue T (n + 1)) (out : T) :
    (spsc_queue.pop mv q out).map (fun r => (r.1, spsc_queue.to_plus_one r.2.1, r.2.2))
      = spsc_queue_plus_one.pop mv (spsc_queue.to_plus_one q) out := by
  unfold spsc_queue.pop spsc_queue_plus_one.pop
  simp only [spsc_queue.next, spsc_queue_plus_one.next, spsc_queue.to_plus_one]
  split_ifs <;> rfl

/-! ## Runs through the interface -/

theorem run_calls_view {Q T : Type} {Size : Nat} (push1 : Q → T → Option (Bool × Q))
    (pop1 : Q → T → Option (Bool × Q × T)) (view : Q → spsc_queue_plus_one T Size)
    (ready : Q → Prop) (mv : T → T → T)
    (hpush : ∀ q v, ready q →
      (push1 q v).map (fun r => (r.1, view r.2)) = spsc_queue_plus_one.push (view q) v ∧
      ∀ b q2, push1 q v = some (b, q2) → ready q2)
    (hpop : ∀ q out, ready q →
      (pop1 q out).map (fun r => (r.1, view r.2.1, r.2.2))
        = spsc_queue_plus_one.pop mv (view q) out ∧
      ∀ b q2 x, pop1 q out = some (b, q2, x) → ready q2)
    (ops : List (Op T)) :
    ∀ (q : Q) (out : T), ready q →
      (run_calls push1 pop1 ops q out).map
          (fun r => ({ queue := view r.queue, out := r.out, pushed := r.pushed,
                       popped := r.popped } : Trace T Size))
        = run_ops mv ops (view q) out ∧
      ∀ r, run_calls push1 pop1 ops q out = some r → ready r.queue := by
  induction ops with
  | nil =>
    intro q out hr
    refine ⟨rfl, ?_⟩
    intro r h
    simp only [run_calls, Option.some.injEq] at h
    subst h
    exact hr
  | cons op ops ih =>
    intro q out hr
    cases op with
    | push v =>
      obtain ⟨h1, h2⟩ := hpush q v hr
      cases hq : push1 q v with
      | none =>
        rw [hq] at h1
        simp only [Option.map_none'] at h1
        simp only [run_calls, run_ops, hq, ← h1, Option.map_none']
        exact ⟨trivial, fun r h => by cases h⟩
      | some res =>
        obtain ⟨b, q2⟩ := res
        rw [hq] at h1
        simp only [Option.map_some'] at h1
        obtain ⟨i1, i2⟩ := ih q2 out (h2 b q2 hq)
        cases hrun : run_calls push1 pop1 ops q2 out with
        | none =>
          rw [hrun] at i1
          simp only [Option.map_none'] at i1
          simp only [run_calls, run_ops, hq, ← h1, hrun, ← i1, Option.map_none']
          exact ⟨trivial, fun r h => by cases h⟩
        | some r0 =>
          rw [hrun] at i1
          simp only [Option.map_some'] at i1
          simp only [run_calls, run_ops, hq, ← h1, hrun, ← i1, Option.map_some']
          refine ⟨trivial, ?_⟩
          intro r h
          simp only [Option.some.injEq] at h
          subst h
          exact i2 r0 hrun
    | pop =>
      obtain ⟨h1, h2⟩ := hpop q out hr
      cases hq : pop1 q out with
      | none =>
        rw [hq] at h1
        simp only [Option.map_none'] at h1
        simp only [run_calls, run_ops, hq, ← h1, Option.map_none']
        exact ⟨trivial, fun r h => by cases h⟩
      | some res =>
        obtain ⟨b, q2, x⟩ := res
        rw [hq] at h1
        simp only [Option.map_some'] at h1
        obtain ⟨i1, i2⟩ := ih q2 x (h2 b q2 x hq)
        cases hrun : run_calls push1 pop1 ops q2 x with
        | none =>
          rw [hrun] at i1
          simp only [Option.map_none'] at i1
          simp only [run_calls, run_ops, hq, ← h1, hrun, ← i1, Option.map_none']
          exact ⟨trivial, fun r h => by cases h⟩
        | some r0 =>
          rw [hrun] at i1
          simp only [Option.map_some'] at i1
          simp only [run_calls, run_ops, hq, ← h1, hrun, ← i1, Option.map_some']
          refine ⟨trivial, ?_⟩
          intro r h
          simp only [Option.some.injEq] at h
          subst h
          exact i2 r0 hrun

theorem sentinel_variant_sim {T : Type} {Size : Nat} (fuel : Nat) (hf : 1 ≤ fuel)
    (V : Variant T Size) (hV : V ∈ sentinel_variants T Size fuel) (mv : T → T → T)
    (q : V.Q) (hr : V.ready q) :
    (∀ v : T,
      (V.push q v).map (fun r => (r.1, V.view r.2))
        = spsc_queue_plus_one.push (V.view q) v ∧
      ∀ b q2, V.push q v = some (b, q2) → V.ready q2) ∧
    (∀ out : T,
      (V.pop mv q out).map (fun r => (r.1, V.view r.2.1, r.2.2))
        = spsc_queue_plus_one.pop mv (V.view q) out ∧
      ∀ b q2 x, V.pop mv q out = some (b, q2, x) → V.ready q2) := by
  simp only [sentinel_variants, List.mem_cons, List.mem_singleton, List.mem_nil_iff,
    or_false] at hV
  rcases hV with rfl | rfl | rfl | rfl | rfl | rfl | rfl
  · exact ⟨fun v => ⟨spsc_queue_no_false_sharing.no_false_sharing_push_sim q v, fun _ _ _ => trivial⟩,
      fun out => ⟨spsc_queue_no_false_sharing.no_false_sharing_pop_sim mv q out, fun _ _ _ _ => trivial⟩⟩
  · exact ⟨fun v => ⟨spsc_queue_double_spin_lock.double_spin_lock_push_sim fuel hf q v hr,
        spsc_queue_double_spin_lock.double_spin_lock_push_ready fuel hf q v hr⟩,
      fun out => ⟨spsc_queue_double_spin_lock.double_spin_lock_pop_sim fuel hf mv q out hr,
        spsc_queue_double_spin_lock.double_spin_lock_pop_ready fuel hf mv q out hr⟩⟩
  · exact ⟨fun v => ⟨spsc_queue_single_spin_lock.single_spin_lock_push_sim fuel hf q v hr,
        spsc_queue_single_spin_lock.single_spin_lock_push_ready fuel hf q v hr⟩,
      fun out => ⟨spsc_queue_single_spin_lock.single_spin_lock_pop_sim fuel hf mv q out hr,
        spsc_queue_single_spin_lock.single_spin_lock_pop_ready fuel hf mv q out hr⟩⟩
  · exact ⟨fun v => ⟨spsc_queue_double_mutex.double_mutex_push_sim q v hr,
        spsc_queue_double_mutex.double_mutex_push_ready q v hr⟩,
      fun out => ⟨spsc_queue_double_mutex.double_mutex_pop_sim mv q out hr,
        spsc_queue_double_mutex.double_mutex_pop_ready mv q out hr⟩⟩
  · exact ⟨fun v => ⟨spsc_queue_single_mutex.single_mutex_push_sim q v hr,
        spsc_queue_single_mutex.single_mutex_push_ready q v hr⟩,
      fun out => ⟨spsc_queue_single_mutex.single_mutex_pop_sim mv q out hr,
        spsc_queue_single_mutex.single_mutex_pop_ready mv q out hr⟩⟩
  · exact ⟨fun v => ⟨spsc_queue_spin_lock_no_atomic.spin_lock_no_atomic_push_sim fuel hf q v hr,
        spsc_queue_spin_lock_no_atomic.spin_lock_no_atomic_push_ready fuel hf q v hr⟩,
      fun out => ⟨spsc_queue_spin_lock_no_atomic.spin_lock_no_atomic_pop_sim fuel hf mv q out hr,
        spsc_queue_spin_lock_no_atomic.spin_lock_no_atomic_pop_ready fuel hf mv q out hr⟩⟩
  · exact ⟨fun v => ⟨spsc_queue_spin_lock_no_raii.spin_lock_no_raii_push_sim fuel hf q v hr,
        spsc_queue_spin_lock_no_raii.spin_lock_no_raii_push_ready fuel hf q v hr⟩,
      fun out => ⟨spsc_queue_spin_lock_no_raii.spin_lock_no_raii_pop_sim fuel hf mv q out hr,
        spsc_queue_spin_lock_no_raii.spin_lock_no_raii_pop_ready fuel hf mv q out hr⟩⟩

theorem benchmark_variant_sim {T : Type} {Size : Nat} (fuel : Nat) (hf : 1 ≤ fuel)
    (V : Variant T Size) (hV : V ∈ benchmark_variants T Size fuel) (mv : T → T → T)
    (q : V.Q) (hr : V.ready q) :
    (∀ v : T,
      (V.push q v).map (fun r => (r.1, V.view r.2))
        = spsc_queue_plus_one.push (V.view q) v ∧
      ∀ b q2, V.push q v = some (b, q2) → V.ready q2) ∧
    (∀ out : T,
      (V.pop mv q out).map (fun r => (r.1, V.view r.2.1, r.2.2))
        = spsc_queue_plus_one.pop mv (V.view q) out ∧
      ∀ b q2 x, V.pop mv q out = some (b, q2, x) → V.ready q2) := by
  simp only [benchmark_variants, List.mem_cons] at hV
  rcases hV with rfl | rfl | hV
  · exact ⟨fun v => ⟨spsc_queue.push_to_plus_one q v, fun _ _ _ => trivial⟩,
      fun out => ⟨spsc_queue.pop_to_plus_one mv q out, fun _ _ _ _ => trivial⟩⟩
  · refine ⟨fun v => ⟨?_, fun _ _ _ => trivial⟩, fun out => ⟨?_, fun _ _ _ _ => trivial⟩⟩
    · show Option.map id (spsc_queue_plus_one.push q v) = spsc_queue_plus_one.push q v
      rw [Option.map_id]
      rfl
    · show Option.map id (spsc_queue_plus_one.pop mv q out) = spsc_queue_plus_one.pop mv q out
      rw [Option.map_id]
      rfl
  · exact sentinel_variant_sim fuel hf V hV mv q hr

/-! ## Helper facts for the invariants -/

theorem ring_count_int (m h t : Nat) (hh : h < m) (ht : t < m) :
    ((h : Int) - (t : Int)) % (m : Int) = (((h + m - t) % m : Nat) : Int) := by
  rw [ring_count_eq m h t hh ht]
  split_ifs with hle
  · rw [Int.emod_eq_of_lt (by omega) (by omega)]
    omega
  · rw [← Int.add_emod_self, Int.emod_eq_of_lt (by omega) (by omega)]
    omega

namespace spsc_queue_plus_one

variable {T : Type} {Size : Nat}

theorem live_length (q : spsc_queue_plus_one T Size) : (live q).length = count q := by
  simp [live]

theorem push_defined (q : spsc_queue_plus_one T Size) (v : T) (hidx : q.head_ < Size + 1) :
    ∃ r, push q v = some r := by
  by_cases hf : next Size q.head_ = q.tail_
  · exact ⟨_, push_of_full q v hf⟩
  · exact ⟨_, push_of_not_full q v hidx hf⟩

theorem pop_defined (mv : T → T → T) (q : spsc_queue_plus_one T Size) (out : T)
    (hidx : q.tail_ < Size + 1) : ∃ r, pop mv q out = some r := by
  by_cases he : q.tail_ = q.head_
  · exact ⟨_, pop_of_empty mv q out he⟩
  · exact ⟨_, pop_of_not_empty mv q out hidx he⟩

theorem push_live (q : spsc_queue_plus_one T Size) (v : T) (hb : in_bounds q) :
    ∃ (b : Bool) (q2 : spsc_queue_plus_one T Size),
      push q v = some (b, q2) ∧ in_bounds q2 ∧
      live q2 = live q ++ (if b then [v] else []) := by
  by_cases hf : next Size q.head_ = q.tail_
  · exact ⟨false, q, push_of_full q v hf, hb, by simp⟩
  · exact ⟨true, _, push_of_not_full q v hb.1 hf, ⟨next_lt _ _, hb.2⟩,
      live_after_push q v hb hf⟩

theorem pop_live (mv : T → T → T) (q : spsc_queue_plus_one T Size) (out : T)
    (hb : in_bounds q) :
    ∃ (b : Bool) (q2 : spsc_queue_plus_one T Size) (x : T),
      pop mv q out = some (b, q2, x) ∧ in_bounds q2 ∧
      live q = (if b then [x] else []) ++ live q2 := by
  by_cases he : q.tail_ = q.head_
  · exact ⟨false, q, out, pop_of_empty mv q out he, hb, by simp⟩
  · exact ⟨true, _, _, pop_of_not_empty mv q out hb.2 he, ⟨hb.1, next_lt _ _⟩,
      live_before_pop q _ hb he⟩

theorem pop_copy_keeps_ring (q : spsc_queue_plus_one T Size) (out : T) (b : Bool)
    (q2 : spsc_queue_plus_one T Size) (x : T) (h : pop copy_move q out = some (b, q2, x)) :
    q2.head_ = q.head_ ∧ q2.ring_ = q.ring_ := by
  simp only [pop] at h
  split_ifs at h with h1 h2
  · simp only [Option.some.injEq, Prod.mk.injEq] at h
    obtain ⟨_, rfl, _⟩ := h
    exact ⟨rfl, rfl⟩
  · simp only [Option.some.injEq, Prod.mk.injEq] at h
    obtain ⟨_, rfl, _⟩ := h
    exact ⟨rfl, by simp [copy_move]⟩

theorem pop_keeps_head (mv : T → T → T) (q : spsc_queue_plus_one T Size) (out : T) (b : Bool)
    (q2 : spsc_queue_plus_one T Size) (x : T) (h : pop mv q out = some (b, q2, x)) :
    q2.head_ = q.head_ := by
  simp only [pop] at h
  split_ifs at h with h1 h2 <;> simp only [Option.some.injEq, Prod.mk.injEq] at h <;>
    obtain ⟨_, rfl, _⟩ := h <;> rfl

theorem push_frame (q : spsc_queue_plus_one T Size) (v : T) (b : Bool)
    (q2 : spsc_queue_plus_one T Size) (h : push q v = some (b, q2)) :
    q2.tail_ = q.tail_ ∧ ∀ i : Fin (Size + 1), i.val ≠ q.head_ → q2.ring_ i = q.ring_ i := by
  simp only [push] at h
  split_ifs at h with h1 h2
  · simp only [Option.some.injEq, Prod.mk.injEq] at h
    obtain ⟨_, rfl⟩ := h
    exact ⟨rfl, fun _ _ => rfl⟩
  · simp only [Option.some.injEq, Prod.mk.injEq] at h
    obtain ⟨_, rfl⟩ := h
    refine ⟨rfl, fun i hi => ?_⟩
    exact Function.update_noteq (fun hEq => hi (by rw [hEq])) _ _

end spsc_queue_plus_one

theorem spsc_queue.run_calls_in_bounds {T : Type} {n : Nat} (mv : T → T → T)
    (ops : List (Op T)) (ring0 : Fin (n + 1) → T) (out0 : T) :
    ∃ r : Run (spsc_queue T (n + 1)) T,
      run_calls spsc_queue.push (spsc_queue.pop mv) ops (spsc_queue.ctor ring0) out0 = some r ∧
      r.queue.head_ < n + 1 ∧ r.queue.tail_ < n + 1 := by
  obtain ⟨h1, _⟩ := run_calls_view spsc_queue.push (spsc_queue.pop mv) spsc_queue.to_plus_one
    (fun _ => True) mv
    (fun q v _ => ⟨spsc_queue.push_to_plus_one q v, fun _ _ _ => trivial⟩)
    (fun q out _ => ⟨spsc_queue.pop_to_plus_one mv q out, fun _ _ _ _ => trivial⟩)
    ops (spsc_queue.ctor ring0) out0 trivial
  obtain ⟨t, ht, hb, _⟩ := run_ops_live mv ops
    (spsc_queue.to_plus_one (spsc_queue.ctor ring0)) out0 ⟨Nat.succ_pos n, Nat.succ_pos n⟩
  rw [ht] at h1
  obtain ⟨r, hr, hrt⟩ := Option.map_eq_some'.mp h1
  refine ⟨r, hr, ?_, ?_⟩
  · have := hb.1
    rw [← hrt] at this
    exact this
  · have := hb.2
    rw [← hrt] at this
    exact this

/-! ## Invariants of the reachable states -/

/-- C11. Capacity accounting: in every state reached from construction by pushes and pops, the
number of live elements (successful pushes minus successful pops) equals
`(head - tail) mod (Size + 1)` and is at most `Size`; it is `0` exactly when `head == tail`
and `Size` exactly when `(head + 1) mod (Size + 1) == tail`. -/
theorem capacity_accounting {T : Type} {Size : Nat} (mv : T → T → T) (ops : List (Op T))
    (ring0 : Fin (Size + 1) → T) (out0 : T) :
    ∃ t : Trace T Size,
      run_ops mv ops (spsc_queue_plus_one.ctor ring0) out0 = some t ∧
      t.popped.length ≤ t.pushed.length ∧
      (((t.pushed.length - t.popped.length : Nat) : Int)
        = ((t.queue.head_ : Int) - (t.queue.tail_ : Int)) % ((Size : Int) + 1)) ∧
      t.pushed.length - t.popped.length ≤ Size ∧
      (t.pushed.length - t.popped.length = 0 ↔ t.queue.head_ = t.queue.tail_) ∧
      (t.pushed.length - t.popped.length = Size
        ↔ (t.queue.head_ + 1) % (Size + 1) = t.queue.tail_) := by
  obtain ⟨t, h1, h2, h3⟩ :=
    run_ops_live mv ops (spsc_queue_plus_one.ctor ring0) out0
      (spsc_queue_plus_one.in_bounds_ctor ring0)
  rw [spsc_queue_plus_one.live_of_empty _ (spsc_queue_plus_one.in_bounds_ctor ring0) rfl,
    List.nil_append] at h3
  have hlen : t.pushed.length = t.popped.length + spsc_queue_plus_one.count t.queue := by
    rw [h3, List.length_append, spsc_queue_plus_one.live_length]
  have hdiff : t.pushed.length - t.popped.length = spsc_queue_plus_one.count t.queue := by
    omega
  refine ⟨t, h1, by omega, ?_, ?_, ?_, ?_⟩
  · rw [hdiff]
    have := ring_count_int (Size + 1) t.queue.head_ t.queue.tail_ h2.1 h2.2
    rw [Nat.cast_add, Nat.cast_one] at this
    rw [this]
    rfl
  · rw [hdiff]
    exact spsc_queue_plus_one.count_le t.queue
  · rw [hdiff]
    exact spsc_queue_plus_one.count_empty_iff t.queue h2
  · rw [hdiff]
    exact spsc_queue_plus_one.count_full_iff t.queue h2

/-- C12. Representation invariant: in every state reached from construction by pushes and
pops, the pushed-but-not-yet-popped values, in push order, are exactly the contents of the
slots `tail, tail + 1, ..., head - 1` (indices modulo `Size + 1`); a further push appends its
value to that list when it succeeds and leaves it alone when it fails, a further pop removes
its first value when it succeeds and leaves it alone when it fails. -/
theorem representation_invariant {T : Type} {Size : Nat} (mv : T → T → T) (ops : List (Op T))
    (ring0 : Fin (Size + 1) → T) (out0 : T) :
    ∃ t : Trace T Size,
      run_ops mv ops (spsc_queue_plus_one.ctor ring0) out0 = some t ∧
      t.pushed = t.popped ++ spsc_queue_plus_one.live t.queue ∧
      t.pushed.drop t.popped.length = spsc_queue_plus_one.live t.queue ∧
      (∀ v : T, ∃ (b : Bool) (q2 : spsc_queue_plus_one T Size),
        spsc_queue_plus_one.push t.queue v = some (b, q2) ∧
        spsc_queue_plus_one.live q2
          = spsc_queue_plus_one.live t.queue ++ (if b then [v] else [])) ∧
      (∀ out : T, ∃ (b : Bool) (q2 : spsc_queue_plus_one T Size) (x : T),
        spsc_queue_plus_one.pop mv t.queue out = some (b, q2, x) ∧
        spsc_queue_plus_one.live t.queue
          = (if b then [x] else []) ++ spsc_queue_plus_one.live q2) := by
  obtain ⟨t, h1, h2, h3⟩ :=
    run_ops_live mv ops (spsc_queue_plus_one.ctor ring0) out0
      (spsc_queue_plus_one.in_bounds_ctor ring0)
  rw [spsc_queue_plus_one.live_of_empty _ (spsc_queue_plus_one.in_bounds_ctor ring0) rfl,
    List.nil_append] at h3
  refine ⟨t, h1, h3, ?_, ?_, ?_⟩
  · rw [h3, List.drop_left]
  · intro v
    obtain ⟨b, q2, hp, _, hl⟩ := spsc_queue_plus_one.push_live t.queue v h2
    exact ⟨b, q2, hp, hl⟩
  · intro out
    obtain ⟨b, q2, x, hp, _, hl⟩ := spsc_queue_plus_one.pop_live mv t.queue out h2
    exact ⟨b, q2, x, hp, hl⟩

/-- C13. Single-writer frame property: whenever `push` returns (successfully or not) the tail
is the one it was and no slot other than the one at the old head index has changed; whenever
`pop` returns (successfully or not) the head is the one it was, and for an element type whose
move is a copy no slot has changed either; both calls do return on every state whose cursors
are valid indices. -/
theorem single_writer_frame {T : Type} {Size : Nat} (mv : T → T → T)
    (q : spsc_queue_plus_one T Size) (v out : T) :
    (∀ (b : Bool) (q2 : spsc_queue_plus_one T Size),
      spsc_queue_plus_one.push q v = some (b, q2) →
        q2.tail_ = q.tail_ ∧
        ∀ i : Fin (Size + 1), i.val ≠ q.head_ → q2.ring_ i = q.ring_ i) ∧
    (∀ (b : Bool) (q2 : spsc_queue_plus_one T Size) (x : T),
      spsc_queue_plus_one.pop mv q out = some (b, q2, x) → q2.head_ = q.head_) ∧
    (∀ (b : Bool) (q2 : spsc_queue_plus_one T Size) (x : T),
      spsc_queue_plus_one.pop copy_move q out = some (b, q2, x) →
        q2.head_ = q.head_ ∧ q2.ring_ = q.ring_) ∧
    (spsc_queue_plus_one.in_bounds q →
      (∃ r, spsc_queue_plus_one.push q v = some r) ∧
      (∃ r, spsc_queue_plus_one.pop mv q out = some r)) :=
  ⟨spsc_queue_plus_one.push_frame q v,
   spsc_queue_plus_one.pop_keeps_head mv q out,
   spsc_queue_plus_one.pop_copy_keeps_ring q out,
   fun hb => ⟨spsc_queue_plus_one.push_defined q v hb.1,
              spsc_queue_plus_one.pop_defined mv q out hb.2⟩⟩

/-! ## The variants and their locks -/

/-- C14. Every sentinel-slot variant runs the protocol of `spsc_queue_plus_one`: executed
alone with its locks free (and at least one round granted to each spin loop), `push` and `pop`
of `spsc_queue_no_false_sharing`, `spsc_queue_double_spin_lock`,
`spsc_queue_single_spin_lock`, `spsc_queue_double_mutex`, `spsc_queue_single_mutex`,
`spsc_queue_spin_lock_no_atomic` and `spsc_queue_spin_lock_no_raii` return the same result and
leave the same head, tail, ring and `out` as `spsc_queue_plus_one` does on the same head, tail,
ring and input (undefined exactly when `spsc_queue_plus_one` is). -/
theorem variants_same_protocol {T : Type} {Size : Nat} (fuel : Nat) (hfuel : 1 ≤ fuel)
    (V : Variant T Size) (hV : V ∈ sentinel_variants T Size fuel) (mv : T → T → T)
    (q : V.Q) (hfree : V.ready q) (v out : T) :
    (V.push q v).map (fun r => (r.1, V.view r.2))
      = spsc_queue_plus_one.push (V.view q) v ∧
    (V.pop mv q out).map (fun r => (r.1, V.view r.2.1, r.2.2))
      = spsc_queue_plus_one.pop mv (V.view q) out :=
  ⟨((sentinel_variant_sim fuel hfuel V hV mv q hfree).1 v).1,
   ((sentinel_variant_sim fuel hfuel V hV mv q hfree).2 out).1⟩

/-- Witness of C14: `spsc_queue_spin_lock_no_raii<Nat, 2>` holding one element, locks free. -/
theorem variants_same_protocol_witness :
    ((variant_spin_lock_no_raii Nat 2 1).push
        ({ ring_ := fun _ => 5, read := spin_lock.ctor, write := spin_lock.ctor,
           head_ := 1, tail_ := 0 } : spsc_queue_spin_lock_no_raii Nat 2) 7).map
        (fun r => (r.1, (variant_spin_lock_no_raii Nat 2 1).view r.2))
      = spsc_queue_plus_one.push
          ((variant_spin_lock_no_raii Nat 2 1).view
            ({ ring_ := fun _ => 5, read := spin_lock.ctor, write := spin_lock.ctor,
               head_ := 1, tail_ := 0 } : spsc_queue_spin_lock_no_raii Nat 2)) 7 ∧
    ((variant_spin_lock_no_raii Nat 2 1).pop copy_move
        ({ ring_ := fun _ => 5, read := spin_lock.ctor, write := spin_lock.ctor,
           head_ := 1, tail_ := 0 } : spsc_queue_spin_lock_no_raii Nat 2) 9).map
        (fun r => (r.1, (variant_spin_lock_no_raii Nat 2 1).view r.2.1, r.2.2))
      = spsc_queue_plus_one.pop copy_move
          ((variant_spin_lock_no_raii Nat 2 1).view
            ({ ring_ := fun _ => 5, read := spin_lock.ctor, write := spin_lock.ctor,
               head_ := 1, tail_ := 0 } : spsc_queue_spin_lock_no_raii Nat 2)) 9 :=
  variants_same_protocol 1 (by decide) (variant_spin_lock_no_raii Nat 2 1)
    (by simp [sentinel_variants]) copy_move
    ({ ring_ := fun _ => 5, read := spin_lock.ctor, write := spin_lock.ctor,
       head_ := 1, tail_ := 0 } : spsc_queue_spin_lock_no_raii Nat 2)
    ⟨rfl, rfl⟩ 7 9

/-- C16. `spin_lock::try_lock` returns `true` if and only if the lock was unlocked beforehand,
and the lock is locked afterwards in both cases (a failed attempt leaves the lock exactly as it
was); `spin_lock::unlock` leaves the lock unlocked, so `try_lock` right after `unlock`
succeeds. -/
theorem try_lock_unlock_contract (l : spin_lock) :
    ((spin_lock.try_lock l).1 = true ↔ l.lock_ = false) ∧
    (spin_lock.try_lock l).2.lock_ = true ∧
    (l.lock_ = true → (spin_lock.try_lock l).2 = l) ∧
    (spin_lock.unlock l).lock_ = false ∧
    (spin_lock.try_lock (spin_lock.unlock l)).1 = true := by
  refine ⟨?_, rfl, ?_, rfl, rfl⟩
  · simp [spin_lock.try_lock]
  · intro h
    cases l
    simp only at h
    subst h
    rfl

/-! ## Index safety and the tight variant -/

/-- C19. Index safety: every sequence of pushes and pops on a freshly constructed
`spsc_queue_plus_one<T, C>` is executed without any access outside the ring and leaves
`head <= C` and `tail <= C`, so that `ring_[head]` in a further push and `ring_[tail]` in a
further pop are in bounds; likewise every sequence of calls on a freshly constructed
`spsc_queue<T, Size>` with `Size >= 1` is executed without any access outside the ring and
leaves `head < Size` and `tail < Size`. -/
theorem index_safety {T : Type} (mv : T → T → T) (C : Nat) (ops : List (Op T))
    (ring0 : Fin (C + 1) → T) (Size : Nat) (hSize : 1 ≤ Size) (ops2 : List (Op T))
    (ring2 : Fin Size → T) (out0 : T) :
    (∃ t : Trace T C,
      run_ops mv ops (spsc_queue_plus_one.ctor ring0) out0 = some t ∧
      t.queue.head_ ≤ C ∧ t.queue.tail_ ≤ C ∧
      (∀ v : T, ∃ r, spsc_queue_plus_one.push t.queue v = some r) ∧
      (∀ out : T, ∃ r, spsc_queue_plus_one.pop mv t.queue out = some r)) ∧
    (∃ r : Run (spsc_queue T Size) T,
      run_calls spsc_queue.push (spsc_queue.pop mv) ops2 (spsc_queue.ctor ring2) out0 = some r ∧
      r.queue.head_ < Size ∧ r.queue.tail_ < Size) := by
  constructor
  · obtain ⟨t, h1, h2, _⟩ :=
      run_ops_live mv ops (spsc_queue_plus_one.ctor ring0) out0
        (spsc_queue_plus_one.in_bounds_ctor ring0)
    exact ⟨t, h1, Nat.le_of_lt_succ h2.1, Nat.le_of_lt_succ h2.2,
      fun v => spsc_queue_plus_one.push_defined t.queue v h2.1,
      fun out => spsc_queue_plus_one.pop_defined mv t.queue out h2.2⟩
  · obtain ⟨n, rfl⟩ : ∃ n, Size = n + 1 := ⟨Size - 1, by omega⟩
    exact spsc_queue.run_calls_in_bounds mv ops2 ring2 out0

/-- Witness of C19: three calls on `spsc_queue_plus_one<Nat, 1>` and on `spsc_queue<Nat, 2>`. -/
theorem index_safety_witness :
    (∃ t : Trace Nat 1,
      run_ops copy_move [Op.push 3, Op.push 4, Op.pop]
        (spsc_queue_plus_one.ctor (fun _ => 0)) 9 = some t ∧
      t.queue.head_ ≤ 1 ∧ t.queue.tail_ ≤ 1 ∧
      (∀ v : Nat, ∃ r, spsc_queue_plus_one.push t.queue v = some r) ∧
      (∀ out : Nat, ∃ r, spsc_queue_plus_one.pop copy_move t.queue out = some r)) ∧
    (∃ r : Run (spsc_queue Nat 2) Nat,
      run_calls spsc_queue.push (spsc_queue.pop copy_move) [Op.push 3, Op.pop, Op.push 4]
        (spsc_queue.ctor (fun _ => 0)) 9 = some r ∧
      r.queue.head_ < 2 ∧ r.queue.tail_ < 2) :=
  index_safety copy_move 1 [Op.push 3, Op.push 4, Op.pop] (fun _ => 0) 2 (by decide)
    [Op.push 3, Op.pop, Op.push 4] (fun _ => 0) 9

/-- C20. The tight variant instantiated one larger is the padded variant: for every `C`,
`spsc_queue<T, C + 1>` and `spsc_queue_plus_one<T, C>` have backing arrays of the same
length, their objects correspond one to one (same array, same cursors), and on corresponding
objects `push` and `pop` return the same result, the same `out` and corresponding objects,
being undefined on the same inputs. -/
theorem tight_one_larger_is_padded {T : Type} (C : Nat) (mv : T → T → T)
    (q : spsc_queue T (C + 1)) (v out : T) :
    spsc_queue.ring_size (C + 1) = spsc_queue_plus_one.ring_size C ∧
    Function.Bijective (spsc_queue.to_plus_one : spsc_queue T (C + 1) → spsc_queue_plus_one T C) ∧
    (spsc_queue.to_plus_one q).ring_ = q.ring_ ∧
    (spsc_queue.to_plus_one q).head_ = q.head_ ∧
    (spsc_queue.to_plus_one q).tail_ = q.tail_ ∧
    (spsc_queue.push q v).map (fun r => (r.1, spsc_queue.to_plus_one r.2))
      = spsc_queue_plus_one.push (spsc_queue.to_plus_one q) v ∧
    (spsc_queue.pop mv q out).map (fun r => (r.1, spsc_queue.to_plus_one r.2.1, r.2.2))
      = spsc_queue_plus_one.pop mv (spsc_queue.to_plus_one q) out := by
  refine ⟨rfl, ⟨fun a b h => spsc_queue.to_plus_one_injective a b h, fun p => ?_⟩, rfl, rfl,
    rfl, spsc_queue.push_to_plus_one q v, spsc_queue.pop_to_plus_one mv q out⟩
  exact ⟨{ ring_ := p.ring_, head_ := p.head_, tail_ := p.tail_ }, rfl⟩

/-! ## One iteration of the benchmark -/

theorem run_ops_within_capacity {T : Type} {Size : Nat} (mv : T → T → T)
    (ops : List (Op T)) :
    ∀ (q : spsc_queue_plus_one T Size) (out : T), spsc_queue_plus_one.in_bounds q →
      spsc_queue_plus_one.count q + (pushes_of ops).length ≤ Size →
      ∃ t : Trace T Size,
        run_ops mv ops q out = some t ∧
        spsc_queue_plus_one.in_bounds t.queue ∧
        t.pushed = pushes_of ops ∧
        spsc_queue_plus_one.live q ++ t.pushed
          = t.popped ++ spsc_queue_plus_one.live t.queue := by
  induction ops with
  | nil =>
    intro q out hb _
    exact ⟨{ queue := q, out := out, pushed := [], popped := [] }, rfl, hb, rfl, by simp⟩
  | cons op ops ih =>
    intro q out hb hroom
    cases op with
    | push v =>
      have hlen : (pushes_of (Op.push v :: ops)).length = (pushes_of ops).length + 1 := rfl
      have hnf : spsc_queue_plus_one.next Size q.head_ ≠ q.tail_ := by
        intro hf
        have := (spsc_queue_plus_one.count_full_iff q hb).mpr hf
        omega
      have hb1 : spsc_queue_plus_one.in_bounds
          ({ ring_ := Function.update q.ring_ ⟨q.head_, hb.1⟩ v,
             head_ := spsc_queue_plus_one.next Size q.head_,
             tail_ := q.tail_ } : spsc_queue_plus_one T Size) :=
        ⟨spsc_queue_plus_one.next_lt _ _, hb.2⟩
      have hc := spsc_queue_plus_one.count_after_push q v hb hnf
      have hl := spsc_queue_plus_one.live_after_push q v hb hnf
      obtain ⟨t, h1, h2, h3, h4⟩ := ih _ out hb1 (by omega)
      refine ⟨{ t with pushed := v :: t.pushed }, ?_, h2, ?_, ?_⟩
      · simp [run_ops, spsc_queue_plus_one.push_of_not_full q v hb.1 hnf, h1]
      · simp only [pushes_of, h3]
      · rw [hl] at h4
        simpa using h4
    | pop =>
      have hlen : (pushes_of (Op.pop :: ops : List (Op T))).length = (pushes_of ops).length :=
        rfl
      by_cases he : q.tail_ = q.head_
      · obtain ⟨t, h1, h2, h3, h4⟩ := ih q out hb (by omega)
        refine ⟨{ t with popped := t.popped }, ?_, h2, h3, h4⟩
        simp [run_ops, spsc_queue_plus_one.pop_of_empty mv q out he, h1]
      · have hb1 : spsc_queue_plus_one.in_bounds
            ({ ring_ := Function.update q.ring_ ⟨q.tail_, hb.2⟩
                          (mv (q.ring_ ⟨q.tail_, hb.2⟩) out),
               head_ := q.head_,
               tail_ := spsc_queue_plus_one.next Size q.tail_ } : spsc_queue_plus_one T Size) :=
          ⟨hb.1, spsc_queue_plus_one.next_lt _ _⟩
        have hc := spsc_queue_plus_one.count_after_pop q (mv (q.ring_ ⟨q.tail_, hb.2⟩) out) hb he
        have hl := spsc_queue_plus_one.live_before_pop q (mv (q.ring_ ⟨q.tail_, hb.2⟩) out) hb he
        obtain ⟨t, h1, h2, h3, h4⟩ := ih _ (q.ring_ ⟨q.tail_, hb.2⟩) hb1 (by omega)
        refine ⟨{ t with popped := q.ring_ ⟨q.tail_, hb.2⟩ :: t.popped }, ?_, h2, h3, ?_⟩
        · simp [run_ops, spsc_queue_plus_one.pop_of_not_empty mv q out hb.2 he, h1]
        · rw [hl]
          simpa using h4

theorem run_ops_drain {T : Type} {Size : Nat} (mv : T → T → T) (n : Nat) :
    ∀ (q : spsc_queue_plus_one T Size) (out : T), spsc_queue_plus_one.in_bounds q →
      spsc_queue_plus_one.count q = n →
      ∃ t : Trace T Size,
        run_ops mv (List.replicate n Op.pop) q out = some t ∧
        t.pushed = [] ∧ t.popped = spsc_queue_plus_one.live q ∧
        t.queue.head_ = t.queue.tail_ := by
  induction n with
  | zero =>
    intro q out hb hc
    have he := (spsc_queue_plus_one.count_empty_iff q hb).mp hc
    exact ⟨{ queue := q, out := out, pushed := [], popped := [] }, rfl, rfl,
      (spsc_queue_plus_one.live_of_empty q hb he).symm, he⟩
  | succ n ih =>
    intro q out hb hc
    have he : q.tail_ ≠ q.head_ := by
      intro h
      have := (spsc_queue_plus_one.count_empty_iff q hb).mpr h.symm
      omega
    have hb1 : spsc_queue_plus_one.in_bounds
        ({ ring_ := Function.update q.ring_ ⟨q.tail_, hb.2⟩
                      (mv (q.ring_ ⟨q.tail_, hb.2⟩) out),
           head_ := q.head_,
           tail_ := spsc_queue_plus_one.next Size q.tail_ } : spsc_queue_plus_one T Size) :=
      ⟨hb.1, spsc_queue_plus_one.next_lt _ _⟩
    have hc1 := spsc_queue_plus_one.count_after_pop q (mv (q.ring_ ⟨q.tail_, hb.2⟩) out) hb he
    have hl := spsc_queue_plus_one.live_before_pop q (mv (q.ring_ ⟨q.tail_, hb.2⟩) out) hb he
    obtain ⟨t, h1, h2, h3, h4⟩ := ih _ (q.ring_ ⟨q.tail_, hb.2⟩) hb1 (by omega)
    refine ⟨{ t with popped := q.ring_ ⟨q.tail_, hb.2⟩ :: t.popped }, ?_, h2, ?_, h4⟩
    · simp [List.replicate_succ, run_ops,
        spsc_queue_plus_one.pop_of_not_empty mv q out hb.2 he, h1]
    · rw [hl]
      simp only [h3]

theorem plus_one_iteration {T : Type} {Size : Nat} (mv : T → T → T) (N : Nat) (hN : N ≤ Size)
    (q0 : spsc_queue_plus_one T Size) (hidx : q0.head_ < Size + 1)
    (hempty : q0.head_ = q0.tail_) (ops : List (Op T)) (hops : (pushes_of ops).length = N)
    (out : T) :
    ∃ t : Trace T Size,
      run_ops mv ops q0 out = some t ∧ t.pushed = pushes_of ops ∧
      ∃ t2 : Trace T Size,
        run_ops mv (List.replicate (N - t.popped.length) Op.pop) t.queue t.out = some t2 ∧
        t.popped ++ t2.popped = pushes_of ops ∧
        t2.queue.head_ = t2.queue.tail_ := by
  have hb : spsc_queue_plus_one.in_bounds q0 := ⟨hidx, hempty ▸ hidx⟩
  have hc0 : spsc_queue_plus_one.count q0 = 0 :=
    (spsc_queue_plus_one.count_empty_iff q0 hb).mpr hempty
  obtain ⟨t, h1, h2, h3, h4⟩ := run_ops_within_capacity mv ops q0 out hb (by omega)
  rw [spsc_queue_plus_one.live_of_empty q0 hb hempty, List.nil_append] at h4
  have hlen : N - t.popped.length = spsc_queue_plus_one.count t.queue := by
    have := congrArg List.length h4
    rw [List.length_append, spsc_queue_plus_one.live_length, h3, hops] at this
    omega
  obtain ⟨t2, g1, _, g3, g4⟩ :=
    run_ops_drain mv (spsc_queue_plus_one.count t.queue) t.queue t.out h2 rfl
  refine ⟨t, h1, h3, t2, ?_, ?_, g4⟩
  · rw [hlen]
    exact g1
  · rw [g3, ← h4, h3]

/-- C18. One iteration of the benchmark, at the granularity of calls: on each of the nine
classes the benchmark instantiates, starting from an empty queue (locks free) of usable capacity
`Size >= N`, under every interleaving of the producer's `N` push calls with pops of the
consumer, every one of the `N` pushes returns `true`; the `N - k` pops the consumer still has
to make after its `k` successful ones then all succeed, the consumer has received the `N`
pushed values in order, and the queue is empty again with its locks free. -/
theorem benchmark_iteration {T : Type} {Size : Nat} (fuel : Nat) (hfuel : 1 ≤ fuel)
    (V : Variant T Size) (hV : V ∈ benchmark_variants T Size fuel) (mv : T → T → T)
    (N : Nat) (hN : N ≤ Size) (q0 : V.Q) (hready : V.ready q0)
    (hidx : (V.view q0).head_ < Size + 1) (hempty : (V.view q0).head_ = (V.view q0).tail_)
    (ops : List (Op T)) (hops : (pushes_of ops).length = N) (out : T) :
    ∃ r : Run V.Q T,
      run_calls V.push (V.pop mv) ops q0 out = some r ∧
      r.pushed = pushes_of ops ∧
      ∃ r2 : Run V.Q T,
        run_calls V.push (V.pop mv) (List.replicate (N - r.popped.length) Op.pop) r.queue r.out
          = some r2 ∧
        r2.popped.length = N - r.popped.length ∧
        r.popped ++ r2.popped = pushes_of ops ∧
        (V.view r2.queue).head_ = (V.view r2.queue).tail_ ∧
        V.ready r2.queue := by
  have hpush : ∀ q v, V.ready q →
      (V.push q v).map (fun r => (r.1, V.view r.2)) = spsc_queue_plus_one.push (V.view q) v ∧
      ∀ b q2, V.push q v = some (b, q2) → V.ready q2 :=
    fun q v hr => (benchmark_variant_sim fuel hfuel V hV mv q hr).1 v
  have hpop : ∀ q o, V.ready q →
      (V.pop mv q o).map (fun r => (r.1, V.view r.2.1, r.2.2))
        = spsc_queue_plus_one.pop mv (V.view q) o ∧
      ∀ b q2 x, V.pop mv q o = some (b, q2, x) → V.ready q2 :=
    fun q o hr => (benchmark_variant_sim fuel hfuel V hV mv q hr).2 o
  obtain ⟨t, h1, h2, t2, h3, h4, h5⟩ :=
    plus_one_iteration mv N hN (V.view q0) hidx hempty ops hops out
  obtain ⟨e1, e2⟩ := run_calls_view V.push (V.pop mv) V.view V.ready mv hpush hpop ops q0 out
    hready
  rw [h1] at e1
  obtain ⟨r, hr, hrt⟩ := Option.map_eq_some'.mp e1
  subst hrt
  obtain ⟨f1, f2⟩ := run_calls_view V.push (V.pop mv) V.view V.ready mv hpush hpop
    (List.replicate (N - r.popped.length) Op.pop) r.queue r.out (e2 r hr)
  rw [h3] at f1
  obtain ⟨r2, hr2, hrt2⟩ := Option.map_eq_some'.mp f1
  subst hrt2
  refine ⟨r, hr, h2, r2, hr2, ?_, h4, h5, f2 r2 hr2⟩
  have hl := congrArg List.length h4
  rw [List.length_append, hops] at hl
  simp only at hl
  omega

/-- Witness of C18: `spsc_queue<Nat, 3>` (usable capacity `2`), two pushes with a pop in
between. -/
theorem benchmark_iteration_witness :
    ∃ r : Run (variant_tight Nat 2).Q Nat,
      run_calls (variant_tight Nat 2).push ((variant_tight Nat 2).pop copy_move)
        [Op.push 3, Op.pop, Op.push 4] (spsc_queue.ctor (fun _ => 0)) 9 = some r ∧
      r.pushed = pushes_of [Op.push 3, Op.pop, Op.push 4] ∧
      ∃ r2 : Run (variant_tight Nat 2).Q Nat,
        run_calls (variant_tight Nat 2).push ((variant_tight Nat 2).pop copy_move)
          (List.replicate (2 - r.popped.length) Op.pop) r.queue r.out = some r2 ∧
        r2.popped.length = 2 - r.popped.length ∧
        r.popped ++ r2.popped = pushes_of [Op.push 3, Op.pop, Op.push 4] ∧
        ((variant_tight Nat 2).view r2.queue).head_
          = ((variant_tight Nat 2).view r2.queue).tail_ ∧
        (variant_tight Nat 2).ready r2.queue :=
  benchmark_iteration 1 (by decide) (variant_tight Nat 2) (by simp [benchmark_variants])
    copy_move 2 (by decide) (spsc_queue.ctor (fun _ => 0)) trivial (by decide) rfl
    [Op.push 3, Op.pop, Op.push 4] rfl 9

/-! ## The two-thread machine keeps its invariant -/

namespace spsc_queue_plus_one

variable {T : Type} {Size : Nat}

theorem live_update_head (q : spsc_queue_plus_one T Size) (x : T) (hb : in_bounds q) :
    live ({ ring_ := Function.update q.ring_ ⟨q.head_, hb.1⟩ x,
            head_ := q.head_,
            tail_ := q.tail_ } : spsc_queue_plus_one T Size) = live q := by
  obtain ⟨hh, ht⟩ := hb
  have hcnt : count q < Size + 1 := Nat.lt_succ_of_le (count_le q)
  have hcq : count q = if q.tail_ ≤ q.head_ then q.head_ - q.tail_
      else q.head_ + (Size + 1) - q.tail_ := ring_count_eq _ _ _ hh ht
  unfold live
  change (List.range (count q)).map _ = _
  apply List.map_congr_left
  intro i hi
  have hi2 : i < count q := List.mem_range.mp hi
  rw [slot_update q.ring_ q.head_ hh x _ _ q.head_ q.tail_]
  have hne : ¬ (q.tail_ + i) % (Size + 1) = q.head_ := by
    rw [ring_index_eq _ _ _ ht (by omega)]
    split_ifs at hcq ⊢ <;> omega
  rw [if_neg hne]

theorem slot_head_written (q : spsc_queue_plus_one T Size) (x : T) (hh : q.head_ < Size + 1) :
    slot ({ ring_ := Function.update q.ring_ ⟨q.head_, hh⟩ x,
            head_ := q.head_,
            tail_ := q.tail_ } : spsc_queue_plus_one T Size) q.head_ = x := by
  rw [slot_update q.ring_ q.head_ hh x _ _ q.head_ q.tail_, if_pos (Nat.mod_eq_of_lt hh)]

theorem update_slot_head (q : spsc_queue_plus_one T Size) (hh : q.head_ < Size + 1) :
    Function.update q.ring_ ⟨q.head_, hh⟩ (slot q q.head_) = q.ring_ := by
  have : slot q q.head_ = q.ring_ ⟨q.head_, hh⟩ := by
    unfold slot
    congr 1
    exact Fin.ext (Nat.mod_eq_of_lt hh)
  rw [this, Function.update_eq_self]

end spsc_queue_plus_one

theorem producer_step_inv {T : Type} {Size : Nat} (sync : Sync) (v : T) (s : Machine T Size)
    (h : machine_inv s) :
    ∃ s2 : Machine T Size, producer_step sync v s = some s2 ∧ machine_inv s2 := by
  obtain ⟨q, pl, ql, ppc, value, head, nh, cpc, tail, out, pushed, popped⟩ := s
  obtain ⟨kind, shared⟩ := sync
  obtain ⟨hb, hp, hc, hf⟩ := h
  cases ppc with
  | idle => cases kind <;> exact ⟨_, rfl, hb, trivial, hc, hf⟩
  | acquire =>
    cases kind
    · exact ⟨_, rfl, hb, trivial, hc, hf⟩
    · cases pl <;> exact ⟨_, rfl, hb, trivial, hc, hf⟩
    · cases pl <;> exact ⟨_, rfl, hb, trivial, hc, hf⟩
  | spin => cases pl <;> exact ⟨_, rfl, hb, trivial, hc, hf⟩
  | load_head => exact ⟨_, rfl, hb, ⟨rfl, rfl⟩, hc, hf⟩
  | load_tail =>
    obtain ⟨hp1, hp2⟩ := hp
    simp only at hp1 hp2
    by_cases hfull : nh = q.tail_
    · simp only [producer_step, if_pos hfull, Option.some.injEq, exists_eq_left']
      exact ⟨hb, trivial, hc, hf⟩
    · simp only [producer_step, if_neg hfull, Option.some.injEq, exists_eq_left']
      refine ⟨hb, ⟨hp1, hp2, ?_⟩, hc, hf⟩
      have hne : spsc_queue_plus_one.count q ≠ Size := by
        intro hcnt
        exact hfull (hp2.trans ((spsc_queue_plus_one.count_full_iff q hb).mp hcnt))
      have := spsc_queue_plus_one.count_le q
      simp only
      omega
  | write_slot =>
    obtain ⟨hp1, hp2, hp3⟩ := hp
    simp only at hp1 hp2 hp3
    subst hp1
    simp only [producer_step, dif_pos hb.1, Option.some.injEq, exists_eq_left']
    refine ⟨⟨hb.1, hb.2⟩, ⟨rfl, hp2, hp3, spsc_queue_plus_one.slot_head_written q value hb.1⟩,
      ?_, ?_⟩
    · cases cpc <;> exact hc
    · have h1 := spsc_queue_plus_one.live_update_head q value hb
      have hb2 : spsc_queue_plus_one.in_bounds
          ({ ring_ := q.ring_, head_ := q.head_,
             tail_ := spsc_queue_plus_one.next Size q.tail_ } : spsc_queue_plus_one T Size) :=
        ⟨hb.1, spsc_queue_plus_one.next_lt _ _⟩
      have h2 := spsc_queue_plus_one.live_update_head _ value hb2
      cases cpc <;> simp only [pending] at hf ⊢ <;> first | (rw [h1]; exact hf) | (rw [h2]; exact hf)
  | store_head =>
    obtain ⟨hp1, hp2, hp3, hp4⟩ := hp
    simp only at hp1 hp2 hp3 hp4
    subst hp1 hp2 hp4
    have hnf : spsc_queue_plus_one.next Size q.head_ ≠ q.tail_ := by
      intro hfull
      have := (spsc_queue_plus_one.count_full_iff q hb).mpr hfull
      omega
    have hcnt := spsc_queue_plus_one.count_after_push q
      (spsc_queue_plus_one.slot q q.head_) hb hnf
    have hl := spsc_queue_plus_one.live_after_push q
      (spsc_queue_plus_one.slot q q.head_) hb hnf
    rw [spsc_queue_plus_one.update_slot_head q hb.1] at hcnt hl
    simp only [producer_step, Option.some.injEq, exists_eq_left']
    refine ⟨⟨spsc_queue_plus_one.next_lt _ _, hb.2⟩, trivial, ?_, ?_⟩
    · cases cpc
      case load_head => exact hc
      case move_slot => exact ⟨hc.1, by simp only [hcnt]; omega⟩
      case store_tail => exact ⟨hc.1, by simp only [hcnt]; omega⟩
      all_goals trivial
    · cases cpc
      case store_tail =>
        obtain ⟨_, hc2⟩ := hc
        simp only at hc2
        have hne : q.tail_ ≠ q.head_ := by
          intro he
          have := (spsc_queue_plus_one.count_empty_iff q hb).mpr he.symm
          omega
        have hpop := spsc_queue_plus_one.count_after_pop q
          (spsc_queue_plus_one.slot q q.tail_) hb hne
        have hb2 : spsc_queue_plus_one.in_bounds
            ({ ring_ := q.ring_, head_ := q.head_,
               tail_ := spsc_queue_plus_one.next Size q.tail_ } : spsc_queue_plus_one T Size) :=
          ⟨hb.1, spsc_queue_plus_one.next_lt _ _⟩
        have hcnt2 : spsc_queue_plus_one.count
            ({ ring_ := q.ring_, head_ := q.head_,
               tail_ := spsc_queue_plus_one.next Size q.tail_ } : spsc_queue_plus_one T Size)
              + 1 = spsc_queue_plus_one.count q := hpop
        have hnf2 : spsc_queue_plus_one.next Size q.head_
            ≠ spsc_queue_plus_one.next Size q.tail_ := by
          intro hfull
          have := (spsc_queue_plus_one.count_full_iff _ hb2).mpr hfull
          omega
        have hl2 := spsc_queue_plus_one.live_after_push _
          (spsc_queue_plus_one.slot q q.head_) hb2 hnf2
        simp only at hl2
        rw [spsc_queue_plus_one.update_slot_head q hb.1] at hl2
        simp only [pending] at hf ⊢
        rw [hl2, hf]
        simp
      all_goals
        simp only [pending] at hf ⊢
        rw [hl, hf]
        simp
  | release r => cases kind <;> exact ⟨_, rfl, hb, trivial, hc, hf⟩

theorem consumer_step_inv {T : Type} {Size : Nat} (sync : Sync) (mv : T → T → T)
    (s : Machine T Size) (h : machine_inv s) :
    ∃ s2 : Machine T Size, consumer_step sync mv s = some s2 ∧ machine_inv s2 := by
  obtain ⟨q, pl, ql, ppc, value, head, nh, cpc, tail, out, pushed, popped⟩ := s
  obtain ⟨kind, shared⟩ := sync
  obtain ⟨hb, hp, hc, hf⟩ := h
  cases cpc with
  | idle => cases kind <;> exact ⟨_, rfl, hb, hp, trivial, hf⟩
  | acquire =>
    cases kind
    · exact ⟨_, rfl, hb, hp, trivial, hf⟩
    · cases shared <;> cases pl <;> cases ql <;> exact ⟨_, rfl, hb, hp, trivial, hf⟩
    · cases shared <;> cases pl <;> cases ql <;> exact ⟨_, rfl, hb, hp, trivial, hf⟩
  | spin => cases shared <;> cases pl <;> cases ql <;> exact ⟨_, rfl, hb, hp, trivial, hf⟩
  | load_tail => exact ⟨_, rfl, hb, hp, rfl, hf⟩
  | load_head =>
    simp only [consumer_ok] at hc
    subst hc
    by_cases hempty : q.tail_ = q.head_
    · simp only [consumer_step, if_pos hempty, Option.some.injEq, exists_eq_left']
      exact ⟨hb, hp, trivial, hf⟩
    · simp only [consumer_step, if_neg hempty, Option.some.injEq, exists_eq_left']
      refine ⟨hb, hp, ⟨rfl, ?_⟩, hf⟩
      have hne : spsc_queue_plus_one.count q ≠ 0 := by
        intro hcnt
        exact hempty ((spsc_queue_plus_one.count_empty_iff q hb).mp hcnt).symm
      simp only
      omega
  | move_slot =>
    obtain ⟨hc1, hc2⟩ := hc
    simp only at hc1 hc2
    subst hc1
    have hne : q.tail_ ≠ q.head_ := by
      intro he
      have := (spsc_queue_plus_one.count_empty_iff q hb).mpr he.symm
      omega
    simp only [consumer_step, dif_pos hb.2, Option.some.injEq, exists_eq_left']
    refine ⟨⟨hb.1, hb.2⟩, ?_, ⟨rfl, hc2⟩, ?_⟩
    · cases ppc
      case load_tail => exact hp
      case write_slot => exact hp
      case store_head =>
        obtain ⟨hp1, hp2, hp3, hp4⟩ := hp
        refine ⟨hp1, hp2, hp3, ?_⟩
        simp only at hp4 ⊢
        rw [spsc_queue_plus_one.slot_update q.ring_ q.tail_ hb.2 _ _ _ q.head_ q.tail_,
          if_neg (by rw [Nat.mod_eq_of_lt hb.1]; exact fun he => hne he.symm)]
        exact hp4
      all_goals trivial
    · have hl := spsc_queue_plus_one.live_before_pop q (mv (q.ring_ ⟨q.tail_, hb.2⟩) out) hb hne
      simp only [pending] at hf ⊢
      rw [hf, hl]
  | store_tail =>
    obtain ⟨hc1, hc2⟩ := hc
    simp only at hc1 hc2
    subst hc1
    have hne : q.tail_ ≠ q.head_ := by
      intro he
      have := (spsc_queue_plus_one.count_empty_iff q hb).mpr he.symm
      omega
    have hpop : spsc_queue_plus_one.count
        ({ ring_ := q.ring_, head_ := q.head_,
           tail_ := spsc_queue_plus_one.next Size q.tail_ } : spsc_queue_plus_one T Size)
          + 1 = spsc_queue_plus_one.count q :=
      spsc_queue_plus_one.count_after_pop q (spsc_queue_plus_one.slot q q.tail_) hb hne
    simp only [consumer_step, Option.some.injEq, exists_eq_left']
    refine ⟨⟨hb.1, spsc_queue_plus_one.next_lt _ _⟩, ?_, trivial, ?_⟩
    · cases ppc
      case load_tail => exact hp
      case write_slot => exact ⟨hp.1, hp.2.1, by have := hp.2.2; simp only at this ⊢; omega⟩
      case store_head =>
        exact ⟨hp.1, hp.2.1, by have := hp.2.2.1; simp only at this ⊢; omega, hp.2.2.2⟩
      all_goals trivial
    · simp only [pending] at hf ⊢
      rw [hf]
      simp
  | release r =>
    cases kind
    · exact ⟨_, rfl, hb, hp, trivial, hf⟩
    · cases shared <;> exact ⟨_, rfl, hb, hp, trivial, hf⟩
    · cases shared <;> exact ⟨_, rfl, hb, hp, trivial, hf⟩

/-! ## The machine against the sequential embedding -/

theorem producer_alone_is_push {T : Type} {Size : Nat} (sync : Sync) (mv : T → T → T)
    (s : Machine T Size) (v : T) (hidle : s.ppc = PPc.idle) (hfree : s.push_lock = false)
    (hidx : s.queue.head_ < Size + 1) :
    ∃ (n : Nat) (s2 : Machine T Size) (b : Bool),
      machine_run sync mv (List.replicate n (Turn.producer v)) s = some s2 ∧
      s2.ppc = PPc.idle ∧ s2.push_lock = false ∧
      spsc_queue_plus_one.push s.queue v = some (b, s2.queue) ∧
      s2.pushed = s.pushed ++ (if b then [v] else []) := by
  obtain ⟨q, pl, ql, ppc, value, head, nh, cpc, tail, out, pushed, popped⟩ := s
  obtain ⟨kind, shared⟩ := sync
  simp only at hidle hfree hidx
  subst hidle hfree
  by_cases hfull : spsc_queue_plus_one.next Size q.head_ = q.tail_
  · rw [spsc_queue_plus_one.push_of_full q v hfull]
    cases kind
    · refine ⟨4, ?_⟩
      simp [List.replicate, machine_run, machine_step, producer_step, hfull]
    · refine ⟨5, ?_⟩
      simp [List.replicate, machine_run, machine_step, producer_step, hfull]
    · refine ⟨5, ?_⟩
      simp [List.replicate, machine_run, machine_step, producer_step, hfull]
  · rw [spsc_queue_plus_one.push_of_not_full q v hidx hfull]
    cases kind
    · refine ⟨6, ?_⟩
      simp [List.replicate, machine_run, machine_step, producer_step, hfull, hidx]
    · refine ⟨7, ?_⟩
      simp [List.replicate, machine_run, machine_step, producer_step, hfull, hidx]
    · refine ⟨7, ?_⟩
      simp [List.replicate, machine_run, machine_step, producer_step, hfull, hidx]

theorem consumer_alone_is_pop {T : Type} {Size : Nat} (sync : Sync) (mv : T → T → T)
    (s : Machine T Size) (hidle : s.cpc = CPc.idle) (hfree : pop_lock_flag sync s = false)
    (hidx : s.queue.tail_ < Size + 1) :
    ∃ (n : Nat) (s2 : Machine T Size) (b : Bool),
      machine_run sync mv (List.replicate n Turn.consumer) s = some s2 ∧
      s2.cpc = CPc.idle ∧ pop_lock_flag sync s2 = false ∧
      spsc_queue_plus_one.pop mv s.queue s.out = some (b, s2.queue, s2.out) ∧
      s2.popped = s.popped ++ (if b then [s2.out] else []) := by
  obtain ⟨q, pl, ql, ppc, value, head, nh, cpc, tail, out, pushed, popped⟩ := s
  obtain ⟨kind, shared⟩ := sync
  simp only at hidle hidx
  subst hidle
  by_cases hempty : q.tail_ = q.head_
  · rw [spsc_queue_plus_one.pop_of_empty mv q out hempty]
    cases kind
    · refine ⟨4, ?_⟩
      simpa [List.replicate, machine_run, machine_step, consumer_step, hempty] using hfree
    · refine ⟨5, ?_⟩
      cases shared <;>
        simp_all [List.replicate, machine_run, machine_step, consumer_step, pop_lock_flag,
          set_pop_lock_flag]
    · refine ⟨5, ?_⟩
      cases shared <;>
        simp_all [List.replicate, machine_run, machine_step, consumer_step, pop_lock_flag,
          set_pop_lock_flag]
  · rw [spsc_queue_plus_one.pop_of_not_empty mv q out hidx hempty]
    cases kind
    · refine ⟨6, ?_⟩
      simpa [List.replicate, machine_run, machine_step, consumer_step, hempty, hidx] using hfree
    · refine ⟨7, ?_⟩
      cases shared <;>
        simp_all [List.replicate, machine_run, machine_step, consumer_step, pop_lock_flag,
          set_pop_lock_flag]
    · refine ⟨7, ?_⟩
      cases shared <;>
        simp_all [List.replicate, machine_run, machine_step, consumer_step, pop_lock_flag,
          set_pop_lock_flag]

theorem machine_init_inv {T : Type} {Size : Nat} (ring0 : Fin (Size + 1) → T)
    (out0 value0 : T) : machine_inv (machine_init ring0 out0 value0 : Machine T Size) := by
  refine ⟨spsc_queue_plus_one.in_bounds_ctor ring0, trivial, trivial, ?_⟩
  simp only [machine_init, pending, List.nil_append]
  exact (spsc_queue_plus_one.live_of_empty _ (spsc_queue_plus_one.in_bounds_ctor ring0)
    rfl).symm

theorem machine_run_inv {T : Type} {Size : Nat} (sync : Sync) (mv : T → T → T)
    (sched : List (Turn T)) :
    ∀ s : Machine T Size, machine_inv s →
      ∃ s2 : Machine T Size, machine_run sync mv sched s = some s2 ∧ machine_inv s2 := by
  induction sched with
  | nil => intro s hs; exact ⟨s, rfl, hs⟩
  | cons a rest ih =>
    intro s hs
    have hstep : ∃ s1 : Machine T Size, machine_step sync mv a s = some s1 ∧ machine_inv s1 := by
      cases a with
      | producer v => exact producer_step_inv sync v s hs
      | consumer => exact consumer_step_inv sync mv s hs
    obtain ⟨s1, h1, h2⟩ := hstep
    obtain ⟨s2, h3, h4⟩ := ih s1 h2
    exact ⟨s2, by simp only [machine_run, h1, h3], h4⟩

theorem pending_of_empty {T : Type} {Size : Nat} (s : Machine T Size) (hs : machine_inv s)
    (he : s.queue.head_ = s.queue.tail_) : pending s = [] := by
  obtain ⟨hb, _, hc, _⟩ := hs
  have h0 := (spsc_queue_plus_one.count_empty_iff s.queue hb).mpr he
  have hl := spsc_queue_plus_one.live_of_empty s.queue hb he
  obtain ⟨q, pl, ql, ppc, value, head, nh, cpc, tail, out, pushed, popped⟩ := s
  cases cpc
  case store_tail =>
    have := hc.2
    simp only at this h0
    omega
  all_goals exact hl

/-! ## Two threads -/

/-- C17. Concurrent FIFO: with one producer thread calling `push` and one consumer thread
calling `pop`, under every interleaving of their individual steps (loads and stores of the
cursors, slot accesses, lock operations), on every variant except the tight one, no step
accesses the ring out of bounds and at every moment the values obtained by the successful
pops, in order, followed by the values still stored in the queue, oldest first, are exactly
the successfully pushed values in push order; whenever the queue is empty the popped sequence
is the pushed sequence. -/
theorem concurrent_fifo {T : Type} {Size : Nat} (sync : Sync)
    (hsync : sync ∈ concurrent_variants) (mv : T → T → T) (sched : List (Turn T))
    (ring0 : Fin (Size + 1) → T) (out0 value0 : T) :
    ∃ s : Machine T Size,
      machine_run sync mv sched (machine_init ring0 out0 value0) = some s ∧
      s.popped ++ pending s = s.pushed ∧
      (∃ rest : List T, s.popped ++ rest = s.pushed) ∧
      (s.queue.head_ = s.queue.tail_ → s.popped = s.pushed) := by
  have _ := hsync
  obtain ⟨s, h1, h2⟩ := machine_run_inv sync mv sched (machine_init ring0 out0 value0)
    (machine_init_inv ring0 out0 value0)
  refine ⟨s, h1, h2.2.2.2.symm, ⟨pending s, h2.2.2.2.symm⟩, ?_⟩
  intro he
  have := h2.2.2.2
  rw [pending_of_empty s h2 he, List.append_nil] at this
  exact this.symm

/-- Witness of C17: `spsc_queue_spin_lock_no_raii<Nat, 2>` under a schedule that lets the
consumer start a `pop` in the middle of the first `push`. -/
theorem concurrent_fifo_witness :
    ∃ s : Machine Nat 2,
      machine_run sync_spin_lock_no_raii copy_move
        [Turn.producer 7, Turn.producer 7, Turn.consumer, Turn.producer 7, Turn.consumer,
         Turn.producer 7, Turn.consumer, Turn.producer 7, Turn.producer 7, Turn.consumer]
        (machine_init (fun _ => 0) 9 0) = some s ∧
      s.popped ++ pending s = s.pushed ∧
      (∃ rest : List Nat, s.popped ++ rest = s.pushed) ∧
      (s.queue.head_ = s.queue.tail_ → s.popped = s.pushed) :=
  concurrent_fifo sync_spin_lock_no_raii (by simp [concurrent_variants]) copy_move
    [Turn.producer 7, Turn.producer 7, Turn.consumer, Turn.producer 7, Turn.consumer,
     Turn.producer 7, Turn.consumer, Turn.producer 7, Turn.producer 7, Turn.consumer]
    (fun _ => 0) 9 0

/-! ## Mutual exclusion of `spin_lock` -/

theorem lock_system_init_inv : lock_system_inv lock_system_init := by
  refine ⟨fun i j hi _ => ?_, ?_⟩
  · simp [lock_system_init] at hi
  · simp [lock_system_init, spin_lock.ctor]

theorem lock_system_step_inv (op : LockOp) (s s2 : LockSystem) (hs : lock_system_inv s)
    (hstep : lock_system_step op s = some s2) : lock_system_inv s2 := by
  obtain ⟨hex, hflag⟩ := hs
  cases op with
  | try_lock t =>
    cases hl : s.lock.lock_ with
    | false =>
      have hnone : ∀ i : Nat, s.holds i = false := by
        intro i
        cases hi : s.holds i with
        | false => rfl
        | true =>
          have := hflag.mpr ⟨i, hi⟩
          rw [hl] at this
          cases this
      simp only [lock_system_step, spin_lock.try_lock, hl, Bool.not_false, Option.some.injEq]
        at hstep
      subst hstep
      refine ⟨fun i j hi hj => ?_, ?_⟩
      · simp only [Function.update_apply] at hi hj
        split_ifs at hi hj with h1 h2 h2
        · rw [h1, h2]
        · rw [hnone j] at hj
          cases hj
        · rw [hnone i] at hi
          cases hi
        · rw [hnone i] at hi
          cases hi
      · simp only [true_iff]
        exact ⟨t, by simp⟩
    | true =>
      simp only [lock_system_step, spin_lock.try_lock, hl, Bool.not_true, Option.some.injEq]
        at hstep
      subst hstep
      refine ⟨hex, ?_⟩
      simp only [true_iff]
      exact hflag.mp hl
  | load t =>
    simp only [lock_system_step, Option.some.injEq] at hstep
    subst hstep
    exact ⟨hex, hflag⟩
  | unlock t =>
    cases ht : s.holds t with
    | false => simp [lock_system_step, ht] at hstep
    | true =>
      simp only [lock_system_step, ht, if_true, Option.some.injEq] at hstep
      subst hstep
      have hnone : ∀ i : Nat, Function.update s.holds t false i = false := by
        intro i
        simp only [Function.update_apply]
        split_ifs with h1
        · rfl
        · cases hi : s.holds i with
          | false => rfl
          | true => exact absurd (hex i t hi ht) h1
      refine ⟨fun i j hi _ => ?_, ?_⟩
      · simp only at hi
        rw [hnone i] at hi
        cases hi
      · simp only [spin_lock.unlock, Bool.false_eq_true, false_iff, not_exists]
        intro i
        rw [hnone i]
        simp

theorem lock_system_run_inv (ops : List LockOp) :
    ∀ s s2 : LockSystem, lock_system_inv s → lock_system_run ops s = some s2 →
      lock_system_inv s2 := by
  induction ops with
  | nil =>
    intro s s2 hs hrun
    simp only [lock_system_run, Option.some.injEq] at hrun
    subst hrun
    exact hs
  | cons op rest ih =>
    intro s s2 hs hrun
    cases hstep : lock_system_step op s with
    | none => simp [lock_system_run, hstep] at hrun
    | some s1 =>
      simp only [lock_system_run, hstep] at hrun
      exact ih s1 s2 (lock_system_step_inv op s s1 hs hstep) hrun


theorem lock_system_step_none_iff (op : LockOp) (s : LockSystem) :
    lock_system_step op s = none ↔ ∃ t : Nat, op = LockOp.unlock t ∧ s.holds t = false := by
  cases op with
  | try_lock t =>
    cases hl : s.lock.lock_ <;> simp [lock_system_step, spin_lock.try_lock, hl]
  | load t => simp [lock_system_step]
  | unlock t =>
    cases ht : s.holds t <;> simp [lock_system_step, ht]

/-- C21. Mutual exclusion of `spin_lock`: with any number of threads, each step being the
atomic exchange of `try_lock` by some thread, a load of the flag, or `unlock` by a thread that
holds the lock (the only steps left out are unlocks by a thread that does not hold it), in
every state reached from the unlocked lock no two threads hold the lock, and the flag is
`true` exactly when some thread holds it. -/
theorem spin_lock_mutual_exclusion (ops : List LockOp) (s : LockSystem)
    (hrun : lock_system_run ops lock_system_init = some s) :
    (∀ i j : Nat, s.holds i = true → s.holds j = true → i = j) ∧
    (s.lock.lock_ = true ↔ ∃ i : Nat, s.holds i = true) ∧
    (∀ op : LockOp, lock_system_step op s = none
      ↔ ∃ t : Nat, op = LockOp.unlock t ∧ s.holds t = false) :=
  ⟨(lock_system_run_inv ops lock_system_init s lock_system_init_inv hrun).1,
   (lock_system_run_inv ops lock_system_init s lock_system_init_inv hrun).2,
   fun op => lock_system_step_none_iff op s⟩

/-- Witness of C21: thread `0` takes the lock, thread `1` fails to take it and waits, thread
`0` releases it, thread `1` takes it. -/
theorem spin_lock_mutual_exclusion_witness :
    (∀ i j : Nat,
      (Function.update (Function.update (Function.update (fun _ => false) 0 true) 0 false)
          1 true : Nat → Bool) i = true →
      (Function.update (Function.update (Function.update (fun _ => false) 0 true) 0 false)
          1 true : Nat → Bool) j = true → i = j) ∧
    ((({ lock_ := true, releases := 1 } : spin_lock).lock_ = true) ↔
      ∃ i : Nat,
        (Function.update (Function.update (Function.update (fun _ => false) 0 true) 0 false)
          1 true : Nat → Bool) i = true) ∧
    (∀ op : LockOp,
      lock_system_step op
          { lock := { lock_ := true, releases := 1 },
            holds := Function.update
              (Function.update (Function.update (fun _ => false) 0 true) 0 false) 1 true }
        = none
      ↔ ∃ t : Nat, op = LockOp.unlock t ∧
          (Function.update (Function.update (Function.update (fun _ => false) 0 true) 0 false)
            1 true : Nat → Bool) t = false) :=
  spin_lock_mutual_exclusion
    [LockOp.try_lock 0, LockOp.try_lock 1, LockOp.load 1, LockOp.unlock 0, LockOp.try_lock 1]
    { lock := { lock_ := true, releases := 1 },
      holds := Function.update
        (Function.update (Function.update (fun _ => false) 0 true) 0 false) 1 true }
    rfl
